import Mathlib

/-!
# Indexed object store: orchestration layer (`internal/store/store.go`)

A shallow embedding of `Store` (Create / Read / Update / Delete / Query), of the
`Cursor` built by `newFilter` with its methods, and of the key-value stores `NewStore`
builds for the three sub-stores.

* The three sub-stores are handles onto disjoint regions of one key-value store.
  The embedding passes the content of the object region and of the index region
  explicitly (`State`); every call on a sub-store takes the content of its own
  region and returns the content it leaves behind.
* `store.go` calls the sub-stores through `s.objects` and `s.indexes`.  Their
  packages are not part of the sources at hand, so `Store` carries them as
  records of functions (`objects.Store`, `indexes.Store`): the definitions of
  `Store.Create` etc. are the control flow of `store.go` over arbitrary
  collaborators.  `objects.model` and `indexes.model` are the collaborators as
  the specification describes them.
* A Go method either returns (`nil` or an error value) or panics; `Outcome`
  records which, and every result carries the list of sub-store calls made, in
  order.  A method of the cursor can also end by the runtime panic of the slice
  index `c.keys[c.keyIndex]` (`CursorOutcome`).
-/

namespace Crud

/-! ## Data model -/

/-- Go `[]byte`. -/
abbrev Bytes := List Nat

/-- Modelled from the spec: `types.SecondaryKey` (package `types` is missing), "a named,
typed, sortable key value used for filtering". -/
structure SecondaryKey where
  ID : Nat
  Value : Bytes
  deriving DecidableEq, Repr

/-- Modelled from the spec: the `types.Object` contract (package `types` is missing): an
object exposes `PrimaryKey()` and `SecondaryKeys()`; `Fields` stands for the rest of
its content, so that two objects with the same keys can still differ. -/
structure Object where
  PrimaryKey : Bytes
  SecondaryKeys : List SecondaryKey
  Fields : Bytes
  deriving DecidableEq, Repr

/-- Go `error` values that are not `nil`: the two sentinels of package `types` and any
other error. -/
inductive Error where
  | ErrNotFound : Error
  | ErrAlreadyExists : Error
  | ErrOther (code : Nat) : Error
  deriving DecidableEq, Repr

/-- The calls `store.go` makes on its sub-stores. -/
inductive Call where
  | objectsCreate (o : Object) : Call
  | objectsRead (primaryKey : Bytes) : Call
  | objectsUpdate (o : Object) : Call
  | objectsDelete (primaryKey : Bytes) : Call
  | objectsGetAllKeys (start stop : Nat) : Call
  | indexesIndex (o : Object) : Call
  | indexesDelete (primaryKey : Bytes) : Call
  | indexesFilter (sks : List SecondaryKey) (start stop : Nat) : Call
  deriving DecidableEq, Repr

/-- The methods of `objects.Store` that `store.go` calls, over the content `OS` of the
object region.  An `Option Error` is a Go `error` (`none` is `nil`). -/
structure objects.Store (OS : Type) where
  Create : OS → Object → OS × Option Error
  Read : OS → Bytes → Object → OS × Object × Option Error
  Update : OS → Object → OS × Option Error
  Delete : OS → Bytes → OS × Option Error
  GetAllKeys : OS → Nat → Nat → OS × List Bytes × Option Error

/-- The methods of `indexes.Store` that `store.go` calls, over the content `IS` of the
index region. -/
structure indexes.Store (IS : Type) where
  Index : IS → Object → IS × Option Error
  Delete : IS → Bytes → IS × Option Error
  Filter : IS → List SecondaryKey → Nat → Nat → IS × List Bytes × Option Error

/-- `type Store struct`: the flag and the two sub-stores the methods use (`cdc` and
`metadata` are set by `NewStore` and read by no method of `store.go`). -/
structure Store (OS IS : Type) where
  verifyType : Bool
  objects : objects.Store OS
  indexes : indexes.Store IS

/-- Content of the object region and of the index region. -/
structure State (OS IS : Type) where
  objects : OS
  indexes : IS
  deriving DecidableEq, Repr

/-- How a call of a Go method with result type `error` ends. -/
inductive Outcome where
  | returned (err : Option Error) : Outcome
  | panicked (errs : List Error) : Outcome
  deriving DecidableEq, Repr

/-- Result of `Create`, `Update`, `Delete`: how the call ended, the state it left, the
sub-store calls it made. -/
structure Result (OS IS : Type) where
  outcome : Outcome
  state : State OS IS
  calls : List Call
  deriving DecidableEq, Repr

/-- Result of `Read`: the returned error, the value of the out-parameter afterwards,
the state, the calls. -/
structure ReadResult (OS IS : Type) where
  err : Option Error
  out : Object
  state : State OS IS
  calls : List Call
  deriving DecidableEq, Repr

/-- `type Cursor struct`. -/
structure Cursor (OS IS : Type) where
  maxKeys : Int
  keyIndex : Int
  keys : List Bytes
  store : Store OS IS

/-- Result of `Query`: the returned pair `(*Cursor, error)`, the state, the calls. -/
structure QueryResult (OS IS : Type) where
  cursor : Option (Cursor OS IS)
  err : Option Error
  state : State OS IS
  calls : List Call

/-! ## `Store` -/

variable {OS IS : Type}

/-- `func (s Store) Create(o types.Object) error`. -/
def Store.Create (s : Store OS IS) (st : State OS IS) (o : Object) : Result OS IS :=
  match s.objects.Create st.objects o with
  | (os1, some err) => ⟨.returned (some err), ⟨os1, st.indexes⟩, [.objectsCreate o]⟩
  | (os1, none) =>
    match s.indexes.Index st.indexes o with
    | (is1, some err) =>
      match s.objects.Delete os1 o.PrimaryKey with
      | (os2, some err2) =>
        ⟨.panicked [err, err2], ⟨os2, is1⟩,
          [.objectsCreate o, .indexesIndex o, .objectsDelete o.PrimaryKey]⟩
      | (os2, none) =>
        ⟨.returned (some err), ⟨os2, is1⟩,
          [.objectsCreate o, .indexesIndex o, .objectsDelete o.PrimaryKey]⟩
    | (is1, none) => ⟨.returned none, ⟨os1, is1⟩, [.objectsCreate o, .indexesIndex o]⟩

/-- `func (s Store) Read(primaryKey []byte, o types.Object) error`. -/
def Store.Read (s : Store OS IS) (st : State OS IS) (primaryKey : Bytes) (o : Object) :
    ReadResult OS IS :=
  match s.objects.Read st.objects primaryKey o with
  | (os1, out, err) => ⟨err, out, ⟨os1, st.indexes⟩, [.objectsRead primaryKey]⟩

/-- `func (s Store) Update(o types.Object) error`. -/
def Store.Update (s : Store OS IS) (st : State OS IS) (o : Object) : Result OS IS :=
  match s.indexes.Delete st.indexes o.PrimaryKey with
  | (is1, some err) => ⟨.returned (some err), ⟨st.objects, is1⟩, [.indexesDelete o.PrimaryKey]⟩
  | (is1, none) =>
    match s.indexes.Index is1 o with
    | (is2, some err) =>
      ⟨.panicked [err], ⟨st.objects, is2⟩, [.indexesDelete o.PrimaryKey, .indexesIndex o]⟩
    | (is2, none) =>
      match s.objects.Update st.objects o with
      | (os1, some err) =>
        ⟨.panicked [err], ⟨os1, is2⟩,
          [.indexesDelete o.PrimaryKey, .indexesIndex o, .objectsUpdate o]⟩
      | (os1, none) =>
        ⟨.returned none, ⟨os1, is2⟩,
          [.indexesDelete o.PrimaryKey, .indexesIndex o, .objectsUpdate o]⟩

/-- `func (s Store) Delete(primaryKey []byte) error`. -/
def Store.Delete (s : Store OS IS) (st : State OS IS) (primaryKey : Bytes) : Result OS IS :=
  match s.indexes.Delete st.indexes primaryKey with
  | (is1, some err) => ⟨.returned (some err), ⟨st.objects, is1⟩, [.indexesDelete primaryKey]⟩
  | (is1, none) =>
    match s.objects.Delete st.objects primaryKey with
    | (os1, some err) =>
      ⟨.panicked [err], ⟨os1, is1⟩, [.indexesDelete primaryKey, .objectsDelete primaryKey]⟩
    | (os1, none) =>
      ⟨.returned none, ⟨os1, is1⟩, [.indexesDelete primaryKey, .objectsDelete primaryKey]⟩

/-- `func newFilter(primaryKeys [][]byte, store Store) *Cursor`. -/
def newFilter (primaryKeys : List Bytes) (store : Store OS IS) : Cursor OS IS :=
  ⟨(primaryKeys.length : Int), 0, primaryKeys, store⟩

/-- `func (s Store) Query(sks []types.SecondaryKey, start, end uint64) (*Cursor, error)`;
`stop` is the parameter `end`.  The two bounds are only handed on, so they are kept as
natural numbers. -/
def Store.Query (s : Store OS IS) (st : State OS IS) (sks : List SecondaryKey)
    (start stop : Nat) : QueryResult OS IS :=
  if sks.length = 0 then
    match s.objects.GetAllKeys st.objects start stop with
    | (os1, _, some err) => ⟨none, some err, ⟨os1, st.indexes⟩, [.objectsGetAllKeys start stop]⟩
    | (os1, pks, none) =>
      ⟨some (newFilter pks s), none, ⟨os1, st.indexes⟩, [.objectsGetAllKeys start stop]⟩
  else
    match s.indexes.Filter st.indexes sks start stop with
    | (is1, _, some err) => ⟨none, some err, ⟨st.objects, is1⟩, [.indexesFilter sks start stop]⟩
    | (is1, pks, none) =>
      ⟨some (newFilter pks s), none, ⟨st.objects, is1⟩, [.indexesFilter sks start stop]⟩

/-! ## The collaborators as the specification describes them -/

/-- Modelled from the spec: the byte order of the "raw ordered key-value store" (the
key-value primitive is missing); keys compare lexicographically. -/
def bytesLt : Bytes → Bytes → Bool
  | [], [] => false
  | [], _ :: _ => true
  | _ :: _, [] => false
  | a :: as, b :: bs => decide (a < b) || (a == b && bytesLt as bs)

/-- Modelled from the spec: `get(key) → bytes|absent` of the missing key-value primitive,
on the content of one region kept as a list of entries. -/
def kvGet {α : Type} (k : Bytes) : List (Bytes × α) → Option α
  | [] => none
  | (k', v) :: t => if k' = k then some v else kvGet k t

/-- Modelled from the spec: `set(key, bytes)` of the missing key-value primitive: an entry
with this key is overwritten, a new entry takes its place in key order. -/
def kvSet {α : Type} (k : Bytes) (v : α) : List (Bytes × α) → List (Bytes × α)
  | [] => [(k, v)]
  | (k', v') :: t =>
    if k' = k then (k, v) :: t
    else if bytesLt k k' then (k, v) :: (k', v') :: t
    else (k', v') :: kvSet k v t

/-- Modelled from the spec: `delete(key)` of the missing key-value primitive. -/
def kvDelete {α : Type} (k : Bytes) : List (Bytes × α) → List (Bytes × α)
  | [] => []
  | (k', v) :: t => if k' = k then kvDelete k t else (k', v) :: kvDelete k t

/-- Modelled from the spec: the range bound of `getAllKeys` and `filter` (both missing):
"optionally bounded by `[rangeStart, rangeEnd)`", an ordinal along the enumeration;
"`0,0` or an empty range means no bound". -/
def bounded (start stop : Nat) (pks : List Bytes) : List Bytes :=
  if start < stop then (pks.drop start).take (stop - start) else pks

/-- Modelled from the spec: the Object Store (package `objects` is missing): "persists
serialized objects keyed by primary key; supports create-if-absent, read,
update-if-present, delete, and key-range enumeration", with `create → AlreadyExists`,
`read → NotFound`, `delete → NotFound`.  The serializer is "lossless for round-trip",
so a record is kept as the object it decodes to; a failed call mutates nothing. -/
def objects.model : objects.Store (List (Bytes × Object)) where
  Create := fun os o =>
    match kvGet o.PrimaryKey os with
    | some _ => (os, some .ErrAlreadyExists)
    | none => (kvSet o.PrimaryKey o os, none)
  Read := fun os primaryKey out =>
    match kvGet primaryKey os with
    | some o => (os, o, none)
    | none => (os, out, some .ErrNotFound)
  Update := fun os o =>
    match kvGet o.PrimaryKey os with
    | some _ => (kvSet o.PrimaryKey o os, none)
    | none => (os, some .ErrNotFound)
  Delete := fun os primaryKey =>
    match kvGet primaryKey os with
    | some _ => (kvDelete primaryKey os, none)
    | none => (os, some .ErrNotFound)
  GetAllKeys := fun os start stop => (os, bounded start stop (os.map Prod.fst), none)

/-- Modelled from the spec: whether a record indexed under the secondary keys `have`
matches a filter: "an object must match *every* given secondary key". -/
def matchesAll (sks have_ : List SecondaryKey) : Bool :=
  sks.all (fun sk => decide (sk ∈ have_))

/-- Modelled from the spec: the Index Store (package `indexes` is missing): "indexing an
object (adding postings for all its secondary keys), removing an object's postings,
and filtering (intersecting postings across a set of secondary keys, optionally
bounded by a numeric range)".  The postings are kept per primary key they point back
to (delete looks them up "by primary key"); the entry of an object without secondary
keys holds no posting.  Indexing fails with `AlreadyExists` when the primary key is
indexed already; delete "fails with `NotFound` if no postings exist", that is when the
key has no entry or an entry without posting; a failed call mutates nothing. -/
def indexes.model : indexes.Store (List (Bytes × List SecondaryKey)) where
  Index := fun is o =>
    match kvGet o.PrimaryKey is with
    | some _ => (is, some .ErrAlreadyExists)
    | none => (kvSet o.PrimaryKey o.SecondaryKeys is, none)
  Delete := fun is primaryKey =>
    match kvGet primaryKey is with
    | some (_ :: _) => (kvDelete primaryKey is, none)
    | _ => (is, some .ErrNotFound)
  Filter := fun is sks start stop =>
    (is, bounded start stop ((is.filter (fun e => matchesAll sks e.2)).map Prod.fst), none)

/-- `const DefaultVerifyType = false`. -/
def DefaultVerifyType : Bool := false

/-- Content of the two regions under the model collaborators. -/
abbrev ModelState := State (List (Bytes × Object)) (List (Bytes × List SecondaryKey))

/-- The store `NewStore` builds without options, over the model collaborators. -/
def modelStore : Store (List (Bytes × Object)) (List (Bytes × List SecondaryKey)) :=
  ⟨DefaultVerifyType, objects.model, indexes.model⟩

/-- The empty store. -/
def emptyState : ModelState := ⟨[], []⟩

/-! ## Invariant I2 (index coverage) -/

/-- I2 on the content of the two regions: under every primary key the index region
holds exactly the secondary keys of the record stored under it, and nothing when there
is no record. -/
def I2 (st : ModelState) : Prop :=
  ∀ pk : Bytes, kvGet pk st.indexes = (kvGet pk st.objects).map Object.SecondaryKeys

/-- Whether a call ended by returning (with or without an error) rather than by a panic. -/
def Outcome.isReturn : Outcome → Bool
  | .returned _ => true
  | .panicked _ => false

/-- The key sequence of the cursor a query returned; empty when it returned no cursor. -/
def QueryResult.keys {OS IS : Type} (r : QueryResult OS IS) : List Bytes :=
  match r.cursor with
  | some c => c.keys
  | none => []

/-! ## Collaborators that can fail -/

/-- Modelled from the spec: the Object Store (package `objects` is missing) with storage
failures.  A fault plan names the calls that fail and their errors: such a call fails
with that error and mutates nothing; any other call is the call of `objects.model`. -/
def objects.faulty (plan : Call → Option Error) : objects.Store (List (Bytes × Object)) where
  Create := fun os o =>
    match plan (.objectsCreate o) with
    | some e => (os, some e)
    | none => objects.model.Create os o
  Read := fun os primaryKey out =>
    match plan (.objectsRead primaryKey) with
    | some e => (os, out, some e)
    | none => objects.model.Read os primaryKey out
  Update := fun os o =>
    match plan (.objectsUpdate o) with
    | some e => (os, some e)
    | none => objects.model.Update os o
  Delete := fun os primaryKey =>
    match plan (.objectsDelete primaryKey) with
    | some e => (os, some e)
    | none => objects.model.Delete os primaryKey
  GetAllKeys := fun os start stop =>
    match plan (.objectsGetAllKeys start stop) with
    | some e => (os, [], some e)
    | none => objects.model.GetAllKeys os start stop

/-- Modelled from the spec: the Index Store (package `indexes` is missing) with storage
failures, as `objects.faulty`. -/
def indexes.faulty (plan : Call → Option Error) :
    indexes.Store (List (Bytes × List SecondaryKey)) where
  Index := fun is o =>
    match plan (.indexesIndex o) with
    | some e => (is, some e)
    | none => indexes.model.Index is o
  Delete := fun is primaryKey =>
    match plan (.indexesDelete primaryKey) with
    | some e => (is, some e)
    | none => indexes.model.Delete is primaryKey
  Filter := fun is sks start stop =>
    match plan (.indexesFilter sks start stop) with
    | some e => (is, [], some e)
    | none => indexes.model.Filter is sks start stop

/-- The store over the collaborators of the specification under a fault plan; under the
plan without faults it is `modelStore`. -/
def faultyStore (plan : Call → Option Error) :
    Store (List (Bytes × Object)) (List (Bytes × List SecondaryKey)) :=
  ⟨DefaultVerifyType, objects.faulty plan, indexes.faulty plan⟩

/-! ## Concrete objects, states and fault plans used to exercise the theorems -/

/-- Secondary key "category = x". -/
def skX : SecondaryKey := ⟨0, [120]⟩

/-- Secondary key "category = y". -/
def skY : SecondaryKey := ⟨0, [121]⟩

/-- Object "a": primary key "a", category x. -/
def objA : Object := ⟨[97], [skX], [1]⟩

/-- Object "a" after a change of its category to y. -/
def objA2 : Object := ⟨[97], [skY], [2]⟩

/-- Object "a" after gaining category y while keeping category x. -/
def objA3 : Object := ⟨[97], [skX, skY], [4]⟩

/-- Object "b": primary key "b", category x. -/
def objB : Object := ⟨[98], [skX], [3]⟩

/-- Object "c": primary key "c", category y. -/
def objC : Object := ⟨[99], [skY], [5]⟩

/-- Object "z": primary key "z", no secondary key. -/
def objZ : Object := ⟨[122], [], [7]⟩

/-- An object whose fields are all empty, as a fresh out-parameter. -/
def blank : Object := ⟨[], [], []⟩

/-- The store holding object "a" alone. -/
def stateA : ModelState := (modelStore.Create emptyState objA).state

/-- The plan without faults. -/
def noFaults : Call → Option Error := fun _ => none

/-- The plan under which indexing object "a" fails. -/
def indexFails : Call → Option Error := fun c =>
  if c = .indexesIndex objA then some (.ErrOther 1) else none

/-- The plan under which indexing object "a" fails and so does deleting its record. -/
def indexAndDeleteFail : Call → Option Error := fun c =>
  if c = .indexesIndex objA then some (.ErrOther 1)
  else if c = .objectsDelete objA.PrimaryKey then some (.ErrOther 2) else none

/-- The plan under which deleting the postings of "a" fails. -/
def indexDeleteFails : Call → Option Error := fun c =>
  if c = .indexesDelete objA.PrimaryKey then some (.ErrOther 3) else none

/-- The plan under which indexing the updated "a" fails. -/
def reindexFails : Call → Option Error := fun c =>
  if c = .indexesIndex objA2 then some (.ErrOther 4) else none

/-- The plan under which overwriting the record of "a" fails. -/
def overwriteFails : Call → Option Error := fun c =>
  if c = .objectsUpdate objA2 then some (.ErrOther 5) else none

/-- The plan under which enumerating all keys fails. -/
def enumerationFails : Call → Option Error := fun c =>
  if c = .objectsGetAllKeys 0 0 then some (.ErrOther 6) else none

/-- The plan under which filtering by category x fails. -/
def filterFails : Call → Option Error := fun c =>
  if c = .indexesFilter [skX] 0 0 then some (.ErrOther 7) else none

/-! ## `Cursor` -/

/-- How a call of a `Cursor` method ends: as the `Store` method it hands over to ended, or
by the Go runtime panic "index out of range" of `c.keys[c.keyIndex]`. -/
inductive CursorOutcome where
  | ended (o : Outcome) : CursorOutcome
  | indexOutOfRange (index : Int) (length : Nat) : CursorOutcome
  deriving DecidableEq, Repr

/-- Result of `Cursor.Delete` and `Cursor.Update`: how the call ended, the cursor
afterwards (the receiver is a pointer), the state, the sub-store calls made. -/
structure CursorResult (OS IS : Type) where
  outcome : CursorOutcome
  cursor : Cursor OS IS
  state : State OS IS
  calls : List Call

/-- Result of `Cursor.Read`: as `CursorResult`, with the value of the out-parameter
afterwards. -/
structure CursorReadResult (OS IS : Type) where
  outcome : CursorOutcome
  out : Object
  cursor : Cursor OS IS
  state : State OS IS
  calls : List Call

/-- `func (c *Cursor) Next()`.  The increment happens below `maxKeys`, so it cannot
overflow a Go `int`. -/
def Cursor.Next (c : Cursor OS IS) : Cursor OS IS :=
  if c.keyIndex < c.maxKeys then ⟨c.maxKeys, c.keyIndex + 1, c.keys, c.store⟩ else c

/-- `func (c *Cursor) Valid() bool`. -/
def Cursor.Valid (c : Cursor OS IS) : Bool :=
  decide (c.keyIndex < c.maxKeys)

/-- `func (c *Cursor) currKey() []byte`: the slice index `c.keys[c.keyIndex]`; `none` is
the runtime panic of an index that is negative or not below `len(c.keys)`. -/
def Cursor.currKey (c : Cursor OS IS) : Option Bytes :=
  if 0 ≤ c.keyIndex then c.keys[c.keyIndex.toNat]? else none

/-- `func (c *Cursor) Read(o types.Object) error`: the argument `c.currKey()` is evaluated
before `c.store.Read` is called. -/
def Cursor.Read (c : Cursor OS IS) (st : State OS IS) (o : Object) : CursorReadResult OS IS :=
  match c.currKey with
  | none => ⟨.indexOutOfRange c.keyIndex c.keys.length, o, c, st, []⟩
  | some key =>
    ⟨.ended (.returned (c.store.Read st key o).err), (c.store.Read st key o).out, c,
      (c.store.Read st key o).state, (c.store.Read st key o).calls⟩

/-- `func (c *Cursor) Delete() error`. -/
def Cursor.Delete (c : Cursor OS IS) (st : State OS IS) : CursorResult OS IS :=
  match c.currKey with
  | none => ⟨.indexOutOfRange c.keyIndex c.keys.length, c, st, []⟩
  | some key =>
    ⟨.ended (c.store.Delete st key).outcome, c, (c.store.Delete st key).state,
      (c.store.Delete st key).calls⟩

/-- `func (c *Cursor) Update(o types.Object) error`. -/
def Cursor.Update (c : Cursor OS IS) (st : State OS IS) (o : Object) : CursorResult OS IS :=
  ⟨.ended (c.store.Update st o).outcome, c, (c.store.Update st o).state,
    (c.store.Update st o).calls⟩

/-- The bounds of a cursor: `0 <= keyIndex <= maxKeys` and `maxKeys == len(keys)`. -/
def Cursor.Inv (c : Cursor OS IS) : Prop :=
  0 ≤ c.keyIndex ∧ c.keyIndex ≤ c.maxKeys ∧ c.maxKeys = (c.keys.length : Int)

/-- The cursor after `k` calls of `Next`. -/
def Cursor.nextN (k : Nat) (c : Cursor OS IS) : Cursor OS IS :=
  Nat.iterate Cursor.Next k c

/-- The cursor of the unfiltered query on the store holding "a" alone. -/
def cursorA : Cursor (List (Bytes × Object)) (List (Bytes × List SecondaryKey)) :=
  newFilter [objA.PrimaryKey] modelStore

/-- A fresh cursor over the keys "a" and "b". -/
def cursorAB : Cursor (List (Bytes × Object)) (List (Bytes × List SecondaryKey)) :=
  newFilter [objA.PrimaryKey, objB.PrimaryKey] modelStore

/-- Object "b" after a change of its category to y. -/
def objB2 : Object := ⟨[98], [skY], [6]⟩

/-- The store holding objects "a" and "b". -/
def stateAB : ModelState := (modelStore.Create stateA objB).state

/-- The calls a client can make while it holds a cursor: the methods of the cursor and
the mutating methods of the store. -/
inductive Op where
  | cursorNext : Op
  | cursorRead (o : Object) : Op
  | cursorUpdate (o : Object) : Op
  | cursorDelete : Op
  | storeCreate (o : Object) : Op
  | storeUpdate (o : Object) : Op
  | storeDelete (primaryKey : Bytes) : Op
  deriving DecidableEq, Repr

/-- A cursor together with the content of the store. -/
structure World (OS IS : Type) where
  cursor : Cursor OS IS
  state : State OS IS

/-- One call: a method of the cursor acts on the cursor and, through its own `store`
field, on the store content; a method of the store `s` (a value receiver, it holds no
reference to the cursor) acts on the store content. -/
def World.step (s : Store OS IS) (w : World OS IS) : Op → World OS IS
  | .cursorNext => ⟨w.cursor.Next, w.state⟩
  | .cursorRead o => ⟨(w.cursor.Read w.state o).cursor, (w.cursor.Read w.state o).state⟩
  | .cursorUpdate o => ⟨(w.cursor.Update w.state o).cursor, (w.cursor.Update w.state o).state⟩
  | .cursorDelete => ⟨(w.cursor.Delete w.state).cursor, (w.cursor.Delete w.state).state⟩
  | .storeCreate o => ⟨w.cursor, (s.Create w.state o).state⟩
  | .storeUpdate o => ⟨w.cursor, (s.Update w.state o).state⟩
  | .storeDelete primaryKey => ⟨w.cursor, (s.Delete w.state primaryKey).state⟩

/-- A sequence of calls, one after the other. -/
def World.run (s : Store OS IS) (w : World OS IS) (ops : List Op) : World OS IS :=
  ops.foldl (World.step s) w

/-! ## `NewStore` and the three namespaces -/

/-- `const ObjectsPrefix = 0x0`. -/
def ObjectsPrefix : Nat := 0

/-- `const IndexesPrefix = 0x1`. -/
def IndexesPrefix : Nat := 1

/-- `const MetadataPrefix = 0x2`. -/
def MetadataPrefix : Nat := 2

/-- Modelled from the spec: a handle on a key-value store (`sdk.KVStore` and
`prefix.NewStore` come from the cosmos-sdk and are missing): the shared store itself, or
a store that "wraps the shared store with a fixed prefix transform". -/
inductive KVStore where
  | root : KVStore
  | prefixed (parent : KVStore) (pfx : Bytes) : KVStore
  deriving DecidableEq, Repr

/-- Modelled from the spec: the key of the shared store under which a handle keeps the
entry of key `k`: "prefixing keys before delegating to a shared underlying store". -/
def KVStore.key : KVStore → Bytes → Bytes
  | .root, k => k
  | .prefixed parent pfx, k => parent.key (pfx ++ k)

/-- Modelled from the spec: `get(key)` through a handle, on the content of the shared
store. -/
def KVStore.Get (s : KVStore) (content : List (Bytes × Bytes)) (k : Bytes) : Option Bytes :=
  kvGet (s.key k) content

/-- Modelled from the spec: `set(key, bytes)` through a handle. -/
def KVStore.Set (s : KVStore) (content : List (Bytes × Bytes)) (k v : Bytes) :
    List (Bytes × Bytes) :=
  kvSet (s.key k) v content

/-- Modelled from the spec: `delete(key)` through a handle. -/
def KVStore.Delete (s : KVStore) (content : List (Bytes × Bytes)) (k : Bytes) :
    List (Bytes × Bytes) :=
  kvDelete (s.key k) content

/-- The key-value stores `NewStore` hands to `objects.NewStore`, `indexes.NewStore` and
`metadata.NewStore`. -/
structure SubStores where
  objects : KVStore
  indexes : KVStore
  metadata : KVStore
  deriving DecidableEq, Repr

/-- `NewStore`, the key-value stores it builds: `prefixedStore := prefix.NewStore(db, pfx)`
and, for each sub-store, `prefix.NewStore(prefixedStore, []byte{...Prefix})`. -/
def NewStore.subStores (db : KVStore) (pfx : Bytes) : SubStores :=
  ⟨.prefixed (.prefixed db pfx) [ObjectsPrefix],
    .prefixed (.prefixed db pfx) [IndexesPrefix],
    .prefixed (.prefixed db pfx) [MetadataPrefix]⟩

/-- `type OptionFunc func(s *Store)`. -/
abbrev OptionFunc (OS IS : Type) := Store OS IS → Store OS IS

/-- `func VerifyTypes(s *Store)`. -/
def VerifyTypes (s : Store OS IS) : Store OS IS :=
  ⟨true, s.objects, s.indexes⟩

/-- `func DoNotVerifyTypes(s *Store)`. -/
def DoNotVerifyTypes (s : Store OS IS) : Store OS IS :=
  ⟨false, s.objects, s.indexes⟩

/-- `func NewStore(cdc codec.Marshaler, db sdk.KVStore, pfx []byte, options ...OptionFunc)
Store`.  `newObjects` and `newIndexes` stand for `objects.NewStore(cdc, ·)` and
`indexes.NewStore(cdc, ·)`, whose packages are missing. -/
def NewStore (newObjects : KVStore → objects.Store OS) (newIndexes : KVStore → indexes.Store IS)
    (db : KVStore) (pfx : Bytes) (options : List (OptionFunc OS IS)) : Store OS IS :=
  options.foldl (fun s opt => opt s)
    ⟨DefaultVerifyType, newObjects (NewStore.subStores db pfx).objects,
      newIndexes (NewStore.subStores db pfx).indexes⟩

/-- The bytes that stand before every key of a handle in the shared store. -/
def KVStore.path : KVStore → Bytes
  | .root => []
  | .prefixed parent pfx => parent.path ++ pfx

/-- No entry of `a` and entry of `b` share a key of the shared store. -/
def KVStore.DisjointFrom (a b : KVStore) : Prop :=
  ∀ k1 k2 : Bytes, a.key k1 ≠ b.key k2

/-- No write through `a` (set or delete) changes what `b` reads. -/
def KVStore.Unaffected (b a : KVStore) : Prop :=
  ∀ (content : List (Bytes × Bytes)) (k1 v k2 : Bytes),
    b.Get (a.Set content k1 v) k2 = b.Get content k2 ∧
    b.Get (a.Delete content k1) k2 = b.Get content k2

/-! ## Enumerating a store -/

/-- Successive calls of `Create`, each of which must return no error; `none` when one
does not. -/
def createAll (s : Store OS IS) (st : State OS IS) : List Object → Option (State OS IS)
  | [] => some st
  | o :: rest =>
    if (s.Create st o).outcome = .returned none then createAll s (s.Create st o).state rest
    else none

/-- What the loop below leaves: the reads it made, in order, and the cursor and the state
at its end. -/
structure LoopResult (OS IS : Type) where
  reads : List (CursorReadResult OS IS)
  cursor : Cursor OS IS
  state : State OS IS

/-- The loop `for ; c.Valid(); c.Next() { c.Read(out) }` of the query-all test, for at
most `fuel` rounds; a read that panics ends it. -/
def readLoop (fuel : Nat) (c : Cursor OS IS) (st : State OS IS) (out : Object) :
    LoopResult OS IS :=
  match fuel with
  | 0 => ⟨[], c, st⟩
  | fuel + 1 =>
    if c.Valid then
      match (c.Read st out).outcome with
      | .indexOutOfRange _ _ => ⟨[c.Read st out], (c.Read st out).cursor, (c.Read st out).state⟩
      | .ended _ =>
        ⟨c.Read st out ::
            (readLoop fuel (c.Read st out).cursor.Next (c.Read st out).state out).reads,
          (readLoop fuel (c.Read st out).cursor.Next (c.Read st out).state out).cursor,
          (readLoop fuel (c.Read st out).cursor.Next (c.Read st out).state out).state⟩
    else ⟨[], c, st⟩

/-- The keys of a region are in ascending byte order. -/
def KeysAscending {α : Type} (l : List (Bytes × α)) : Prop :=
  (l.map Prod.fst).Pairwise (fun a b => bytesLt a b = true)

/-- The store after the creates of "b", "a" and "c", in this order, on the empty store. -/
def stateBAC : ModelState :=
  (modelStore.Create (modelStore.Create (modelStore.Create emptyState objB).state objA).state
    objC).state

/-! ## Lemmas on the key-value model -/

section kv
variable {α : Type}

theorem kvGet_kvSet_self (k : Bytes) (v : α) (l : List (Bytes × α)) :
    kvGet k (kvSet k v l) = some v := by
  induction l with
  | nil => simp [kvSet, kvGet]
  | cons e t ih =>
    obtain ⟨k', v'⟩ := e
    by_cases h : k' = k
    · simp [kvSet, kvGet, h]
    · by_cases hlt : bytesLt k k' = true
      · simp [kvSet, kvGet, h, hlt]
      · simp [kvSet, kvGet, h, hlt, ih]

theorem kvGet_kvSet_ne {k k2 : Bytes} (h : k2 ≠ k) (v : α) (l : List (Bytes × α)) :
    kvGet k2 (kvSet k v l) = kvGet k2 l := by
  induction l with
  | nil => simp [kvSet, kvGet, Ne.symm h]
  | cons e t ih =>
    obtain ⟨k', v'⟩ := e
    by_cases h1 : k' = k
    · subst h1
      simp [kvSet, kvGet, Ne.symm h]
    · by_cases hlt : bytesLt k k' = true
      · simp [kvSet, kvGet, h1, hlt, Ne.symm h]
      · simp [kvSet, kvGet, h1, hlt, ih]

theorem kvGet_kvDelete_self (k : Bytes) (l : List (Bytes × α)) :
    kvGet k (kvDelete k l) = none := by
  induction l with
  | nil => simp [kvDelete, kvGet]
  | cons e t ih =>
    obtain ⟨k', v'⟩ := e
    by_cases h : k' = k
    · simpa [kvDelete, h] using ih
    · simpa [kvDelete, kvGet, h] using ih

theorem kvGet_kvDelete_ne {k k2 : Bytes} (h : k2 ≠ k) (l : List (Bytes × α)) :
    kvGet k2 (kvDelete k l) = kvGet k2 l := by
  induction l with
  | nil => simp [kvDelete, kvGet]
  | cons e t ih =>
    obtain ⟨k', v'⟩ := e
    by_cases h1 : k' = k
    · subst h1
      simpa [kvDelete, kvGet, Ne.symm h] using ih
    · by_cases h2 : k' = k2
      · subst h2
        simp [kvDelete, kvGet, h1]
      · simpa [kvDelete, kvGet, h1, h2] using ih

theorem kvDelete_of_absent {k : Bytes} {l : List (Bytes × α)} (h : kvGet k l = none) :
    kvDelete k l = l := by
  induction l with
  | nil => simp [kvDelete]
  | cons e t ih =>
    obtain ⟨k', v'⟩ := e
    by_cases h1 : k' = k
    · simp [kvGet, h1] at h
    · simp only [kvGet, h1, if_false] at h
      simp [kvDelete, h1, ih h]

theorem kvDelete_kvSet_of_absent {k : Bytes} (v : α) {l : List (Bytes × α)}
    (h : kvGet k l = none) : kvDelete k (kvSet k v l) = l := by
  induction l with
  | nil => simp [kvSet, kvDelete]
  | cons e t ih =>
    obtain ⟨k', v'⟩ := e
    by_cases h1 : k' = k
    · simp [kvGet, h1] at h
    · simp only [kvGet, h1, if_false] at h
      by_cases hlt : bytesLt k k' = true
      · simp [kvSet, kvDelete, h1, hlt, kvDelete_of_absent h]
      · simp [kvSet, kvDelete, h1, hlt, ih h]

end kv

/-! ## Create and Read -/

/-- C1 (create-then-read).  Over the object store of the specification and any index
store: if the primary key of `o` has no record and `Create o` returns no error, then
`Read` of that key returns no error, leaves the out-parameter equal to `o`, and
changes nothing. -/
theorem create_then_read {IS : Type} (v : Bool) (I : indexes.Store IS)
    (st : State (List (Bytes × Object)) IS) (o out : Object)
    (hfresh : kvGet o.PrimaryKey st.objects = none)
    (hok : (Store.Create ⟨v, objects.model, I⟩ st o).outcome = .returned none) :
    Store.Read ⟨v, objects.model, I⟩ (Store.Create ⟨v, objects.model, I⟩ st o).state
        o.PrimaryKey out
      = ⟨none, o, (Store.Create ⟨v, objects.model, I⟩ st o).state,
          [.objectsRead o.PrimaryKey]⟩ := by
  simp only [Store.Create, objects.model, hfresh] at hok ⊢
  rcases hI : I.Index st.indexes o with ⟨is1, _ | e⟩
  · simp [hI, Store.Read, kvGet_kvSet_self]
  · simp only [hI] at hok
    split at hok <;> simp at hok

/-- Witness of C1 on the empty store with object "a". -/
theorem create_then_read_witness :
    kvGet objA.PrimaryKey emptyState.objects = none ∧
    (modelStore.Create emptyState objA).outcome = .returned none ∧
    modelStore.Read (modelStore.Create emptyState objA).state objA.PrimaryKey blank
      = ⟨none, objA, (modelStore.Create emptyState objA).state,
          [.objectsRead objA.PrimaryKey]⟩ :=
  ⟨by decide, by decide,
    create_then_read DefaultVerifyType indexes.model emptyState objA blank
      (by decide) (by decide)⟩

/-- C2 (duplicate create).  Over the object store of the specification and any index
store: after a `Create o` that returned no error, `Create` of any object with the same
primary key returns `ErrAlreadyExists` after the single call `objects.Create`, leaves
the state exactly as the first call left it, and `Read` of the key still returns `o`. -/
theorem duplicate_create {IS : Type} (v : Bool) (I : indexes.Store IS)
    (st : State (List (Bytes × Object)) IS) (o o2 out : Object)
    (hok : (Store.Create ⟨v, objects.model, I⟩ st o).outcome = .returned none)
    (hpk : o2.PrimaryKey = o.PrimaryKey) :
    Store.Create ⟨v, objects.model, I⟩ (Store.Create ⟨v, objects.model, I⟩ st o).state o2
      = ⟨.returned (some .ErrAlreadyExists), (Store.Create ⟨v, objects.model, I⟩ st o).state,
          [.objectsCreate o2]⟩ ∧
    Store.Read ⟨v, objects.model, I⟩
        (Store.Create ⟨v, objects.model, I⟩ (Store.Create ⟨v, objects.model, I⟩ st o).state
          o2).state o.PrimaryKey out
      = ⟨none, o, (Store.Create ⟨v, objects.model, I⟩ st o).state,
          [.objectsRead o.PrimaryKey]⟩ := by
  simp only [Store.Create, objects.model] at hok ⊢
  rcases hg : kvGet o.PrimaryKey st.objects with _ | x
  · simp only [hg] at hok ⊢
    rcases hI : I.Index st.indexes o with ⟨is1, _ | e⟩
    · simp [hI, Store.Read, hpk, kvGet_kvSet_self]
    · simp only [hI] at hok
      split at hok <;> simp at hok
  · simp [hg] at hok

/-- Witness of C2: object "a" created twice on the empty store, the second time with
other content. -/
theorem duplicate_create_witness :
    (modelStore.Create emptyState objA).outcome = .returned none ∧
    objA2.PrimaryKey = objA.PrimaryKey ∧
    (modelStore.Create (modelStore.Create emptyState objA).state objA2
      = ⟨.returned (some .ErrAlreadyExists), (modelStore.Create emptyState objA).state,
          [.objectsCreate objA2]⟩ ∧
    modelStore.Read
        (modelStore.Create (modelStore.Create emptyState objA).state objA2).state
        objA.PrimaryKey blank
      = ⟨none, objA, (modelStore.Create emptyState objA).state,
          [.objectsRead objA.PrimaryKey]⟩) :=
  ⟨by decide, by decide,
    duplicate_create DefaultVerifyType indexes.model emptyState objA objA2 blank
      (by decide) (by decide)⟩

/-! ## Invariant I2 -/

theorem I2_absent {st : ModelState} (h : I2 st) {pk : Bytes} (hg : kvGet pk st.objects = none) :
    kvGet pk st.indexes = none := by
  rw [h pk, hg]; rfl

theorem I2_present {st : ModelState} (h : I2 st) {pk : Bytes} {x : List SecondaryKey}
    (hi : kvGet pk st.indexes = some x) : ∃ y, kvGet pk st.objects = some y := by
  have := h pk
  rw [hi] at this
  cases hy : kvGet pk st.objects with
  | none => rw [hy] at this; simp at this
  | some y => exact ⟨y, rfl⟩

/-- C3 (index coverage, I2).  Over the collaborators of the specification, also when
their calls fail as a fault plan says (without mutating): from a state that satisfies
I2, the state left by any call of `Create`, `Update` or `Delete` that returns, with or
without an error, satisfies I2. -/
theorem I2_preserved (plan : Call → Option Error) (st : ModelState) (h : I2 st) :
    (∀ o, ((faultyStore plan).Create st o).outcome.isReturn = true →
      I2 ((faultyStore plan).Create st o).state) ∧
    (∀ o, ((faultyStore plan).Update st o).outcome.isReturn = true →
      I2 ((faultyStore plan).Update st o).state) ∧
    (∀ pk, ((faultyStore plan).Delete st pk).outcome.isReturn = true →
      I2 ((faultyStore plan).Delete st pk).state) := by
  refine ⟨?_, ?_, ?_⟩
  · intro o
    simp only [faultyStore, Store.Create, objects.faulty, indexes.faulty, objects.model,
      indexes.model]
    rcases plan (.objectsCreate o) with _ | e1
    · rcases hg : kvGet o.PrimaryKey st.objects with _ | x
      · simp only [I2_absent h hg]
        rcases plan (.indexesIndex o) with _ | e2
        · intro _ pk
          by_cases hpk : pk = o.PrimaryKey
          · subst hpk; simp [kvGet_kvSet_self]
          · simp [kvGet_kvSet_ne hpk, h pk]
        · rcases plan (.objectsDelete o.PrimaryKey) with _ | e3
          · simp only [kvGet_kvSet_self, kvDelete_kvSet_of_absent o hg]
            intro _; exact h
          · simp [Outcome.isReturn]
      · intro _; exact h
    · intro _; exact h
  · intro o
    simp only [faultyStore, Store.Update, objects.faulty, indexes.faulty, objects.model,
      indexes.model]
    rcases plan (.indexesDelete o.PrimaryKey) with _ | e1
    · rcases hi : kvGet o.PrimaryKey st.indexes with _ | (_ | ⟨x, xs⟩)
      · intro _; exact h
      · intro _; exact h
      · obtain ⟨y, hy⟩ := I2_present h hi
        simp only [kvGet_kvDelete_self, hy]
        rcases plan (.indexesIndex o) with _ | e2
        · rcases plan (.objectsUpdate o) with _ | e3
          · intro _ pk
            by_cases hpk : pk = o.PrimaryKey
            · subst hpk; simp [kvGet_kvSet_self]
            · simp [kvGet_kvSet_ne hpk, kvGet_kvDelete_ne hpk, h pk]
          · simp [Outcome.isReturn]
        · simp [Outcome.isReturn]
    · intro _; exact h
  · intro k
    simp only [faultyStore, Store.Delete, objects.faulty, indexes.faulty, objects.model,
      indexes.model]
    rcases plan (.indexesDelete k) with _ | e1
    · rcases hi : kvGet k st.indexes with _ | (_ | ⟨x, xs⟩)
      · intro _; exact h
      · intro _; exact h
      · obtain ⟨y, hy⟩ := I2_present h hi
        simp only [hy]
        rcases plan (.objectsDelete k) with _ | e2
        · intro _ pk
          by_cases hpk : pk = k
          · subst hpk; simp [kvGet_kvDelete_self]
          · simp [kvGet_kvDelete_ne hpk, h pk]
        · simp [Outcome.isReturn]
    · intro _; exact h

/-- Witness of C3: from the empty store, a create, a create whose indexing fails and is
rolled back, then an update, a delete and a failing delete on the store holding "a". -/
theorem I2_preserved_witness :
    I2 emptyState ∧
    I2 (modelStore.Create emptyState objA).state ∧
    I2 ((faultyStore indexFails).Create emptyState objA).state ∧
    I2 (modelStore.Update (modelStore.Create emptyState objA).state objA2).state ∧
    I2 (modelStore.Delete (modelStore.Create emptyState objA).state objA.PrimaryKey).state ∧
    I2 (modelStore.Delete (modelStore.Create emptyState objA).state objB.PrimaryKey).state :=
  have hE : I2 emptyState := fun _ => rfl
  have hA : I2 (modelStore.Create emptyState objA).state :=
    (I2_preserved noFaults emptyState hE).1 objA (by decide)
  ⟨hE, hA,
    (I2_preserved indexFails emptyState hE).1 objA (by decide),
    (I2_preserved noFaults _ hA).2.1 objA2 (by decide),
    (I2_preserved noFaults _ hA).2.2 objA.PrimaryKey (by decide),
    (I2_preserved noFaults _ hA).2.2 objB.PrimaryKey (by decide)⟩

/-! ## Create: rollback -/

theorem mem_kvSet_self {α : Type} (k : Bytes) (v : α) (l : List (Bytes × α)) :
    (k, v) ∈ kvSet k v l := by
  induction l with
  | nil => simp [kvSet]
  | cons e t ih =>
    obtain ⟨k', v'⟩ := e
    by_cases h : k' = k
    · simp [kvSet, h]
    · by_cases hlt : bytesLt k k' = true
      · simp [kvSet, h, hlt]
      · simp [kvSet, h, hlt, ih]

theorem bounded_zero (pks : List Bytes) : bounded 0 0 pks = pks := by
  simp [bounded]

theorem matchesAll_self (sks : List SecondaryKey) : matchesAll sks sks = true := by
  simp [matchesAll]

/-- Keys of a query over the model collaborators, without range bound. -/
theorem modelStore_Query_keys (st : ModelState) (sks : List SecondaryKey) :
    (modelStore.Query st sks 0 0).keys =
      if sks.length = 0 then st.objects.map Prod.fst
      else (st.indexes.filter (fun e => matchesAll sks e.2)).map Prod.fst := by
  by_cases h : sks.length = 0
  · simp [Store.Query, modelStore, objects.model, QueryResult.keys, newFilter, bounded_zero, h]
  · simp [Store.Query, modelStore, indexes.model, QueryResult.keys, newFilter, bounded_zero, h]

/-- C4 (create rollback).
(1) Over any collaborators: when `objects.Create` succeeds and `indexes.Index` fails
with `e`, `Create` calls `objects.Delete` on the primary key next and nothing after it;
it returns `e` when that delete succeeds, and it panics exactly when that delete fails.
(2) Over the collaborators of the specification under any fault plan, for an object
with a fresh primary key: when `Create` returns an error the state is the one before
the call and `Read` of the key returns `ErrNotFound`.
(3) Same setting, for a `Create` that returns: it returns no error if and only if
`Read` of the key yields the object and a query by its secondary keys yields its
primary key. -/
theorem create_rollback :
    (∀ {OS IS : Type} (S : Store OS IS) (st : State OS IS) (o : Object) (os1 : OS) (is1 : IS)
        (e : Error),
      S.objects.Create st.objects o = (os1, none) →
      S.indexes.Index st.indexes o = (is1, some e) →
        (S.Create st o).calls
          = [.objectsCreate o, .indexesIndex o, .objectsDelete o.PrimaryKey] ∧
        (S.Create st o).state = ⟨(S.objects.Delete os1 o.PrimaryKey).1, is1⟩ ∧
        ((S.objects.Delete os1 o.PrimaryKey).2 = none →
          (S.Create st o).outcome = .returned (some e)) ∧
        (∀ e2, (S.objects.Delete os1 o.PrimaryKey).2 = some e2 →
          (S.Create st o).outcome = .panicked [e, e2]) ∧
        ((S.Create st o).outcome.isReturn = false ↔
          (S.objects.Delete os1 o.PrimaryKey).2 ≠ none)) ∧
    (∀ (plan : Call → Option Error) (st : ModelState) (o out : Object) (e : Error),
      kvGet o.PrimaryKey st.objects = none →
      ((faultyStore plan).Create st o).outcome = .returned (some e) →
        ((faultyStore plan).Create st o).state = st ∧
        modelStore.Read ((faultyStore plan).Create st o).state o.PrimaryKey out
          = ⟨some .ErrNotFound, out, st, [.objectsRead o.PrimaryKey]⟩) ∧
    (∀ (plan : Call → Option Error) (st : ModelState) (o out : Object),
      kvGet o.PrimaryKey st.objects = none →
      ((faultyStore plan).Create st o).outcome.isReturn = true →
        (((faultyStore plan).Create st o).outcome = .returned none ↔
          ((modelStore.Read ((faultyStore plan).Create st o).state o.PrimaryKey out).err = none ∧
           (modelStore.Read ((faultyStore plan).Create st o).state o.PrimaryKey out).out = o ∧
           o.PrimaryKey ∈
            (modelStore.Query ((faultyStore plan).Create st o).state o.SecondaryKeys 0 0).keys))) := by
  refine ⟨?_, ?_, ?_⟩
  · intro OS IS S st o os1 is1 e h1 h2
    rcases hd : S.objects.Delete os1 o.PrimaryKey with ⟨os2, _ | e2⟩ <;>
      simp [Store.Create, h1, h2, hd, Outcome.isReturn]
  · intro plan st o out e hfresh
    simp only [faultyStore, Store.Create, objects.faulty, indexes.faulty, objects.model,
      indexes.model, hfresh, modelStore, Store.Read]
    rcases plan (.objectsCreate o) with _ | e1
    · rcases plan (.indexesIndex o) with _ | e2
      · rcases hi : kvGet o.PrimaryKey st.indexes with _ | x
        · simp
        · rcases plan (.objectsDelete o.PrimaryKey) with _ | e3
          · simp [kvGet_kvSet_self, kvDelete_kvSet_of_absent o hfresh, hfresh]
          · simp
      · rcases plan (.objectsDelete o.PrimaryKey) with _ | e3
        · simp [kvGet_kvSet_self, kvDelete_kvSet_of_absent o hfresh, hfresh]
        · simp
    · simp [hfresh]
  · intro plan st o out hfresh
    rw [modelStore_Query_keys]
    simp only [faultyStore, Store.Create, objects.faulty, indexes.faulty, objects.model,
      indexes.model, hfresh, modelStore, Store.Read]
    rcases plan (.objectsCreate o) with _ | e1
    · rcases plan (.indexesIndex o) with _ | e2
      · rcases hi : kvGet o.PrimaryKey st.indexes with _ | x
        · simp only [kvGet_kvSet_self, true_and, forall_const, true_iff]
          intro _
          split
          · exact List.mem_map.mpr ⟨(o.PrimaryKey, o), mem_kvSet_self _ _ _, rfl⟩
          · exact List.mem_map.mpr ⟨(o.PrimaryKey, o.SecondaryKeys),
              List.mem_filter.mpr ⟨mem_kvSet_self _ _ _, matchesAll_self _⟩, rfl⟩
        · rcases plan (.objectsDelete o.PrimaryKey) with _ | e3
          · simp [kvGet_kvSet_self, kvDelete_kvSet_of_absent o hfresh, hfresh]
          · simp [Outcome.isReturn]
      · rcases plan (.objectsDelete o.PrimaryKey) with _ | e3
        · simp [kvGet_kvSet_self, kvDelete_kvSet_of_absent o hfresh, hfresh]
        · simp [Outcome.isReturn]
    · simp [hfresh]

/-- Witness of C4 on the empty store with object "a": indexing fails and the rollback
succeeds; indexing fails and the rollback fails; no fault. -/
theorem create_rollback_witness :
    ((faultyStore indexFails).objects.Create emptyState.objects objA
        = ([(objA.PrimaryKey, objA)], none) ∧
      (faultyStore indexFails).indexes.Index emptyState.indexes objA
        = ([], some (.ErrOther 1)) ∧
      ((faultyStore indexFails).objects.Delete [(objA.PrimaryKey, objA)] objA.PrimaryKey).2
        = none ∧
      ((faultyStore indexFails).Create emptyState objA).outcome
        = .returned (some (.ErrOther 1))) ∧
    (((faultyStore indexAndDeleteFail).objects.Delete [(objA.PrimaryKey, objA)]
        objA.PrimaryKey).2 = some (.ErrOther 2) ∧
      ((faultyStore indexAndDeleteFail).Create emptyState objA).outcome
        = .panicked [.ErrOther 1, .ErrOther 2]) ∧
    (kvGet objA.PrimaryKey emptyState.objects = none ∧
      ((faultyStore indexFails).Create emptyState objA).state = emptyState ∧
      modelStore.Read ((faultyStore indexFails).Create emptyState objA).state
          objA.PrimaryKey blank
        = ⟨some .ErrNotFound, blank, emptyState, [.objectsRead objA.PrimaryKey]⟩) ∧
    (((faultyStore noFaults).Create emptyState objA).outcome = .returned none ∧
      (modelStore.Read ((faultyStore noFaults).Create emptyState objA).state
          objA.PrimaryKey blank).out = objA ∧
      objA.PrimaryKey ∈
        (modelStore.Query ((faultyStore noFaults).Create emptyState objA).state
          objA.SecondaryKeys 0 0).keys) :=
  ⟨⟨by decide, by decide, by decide,
      (create_rollback.1 (faultyStore indexFails) emptyState objA _ _ _
        (by decide : _ = ([(objA.PrimaryKey, objA)], none))
        (by decide : _ = (([] : List (Bytes × List SecondaryKey)), some (Error.ErrOther 1)))
        ).2.2.1 (by decide)⟩,
    ⟨by decide,
      (create_rollback.1 (faultyStore indexAndDeleteFail) emptyState objA _ _ _
        (by decide : _ = ([(objA.PrimaryKey, objA)], none))
        (by decide : _ = (([] : List (Bytes × List SecondaryKey)), some (Error.ErrOther 1)))
        ).2.2.2.1 (.ErrOther 2) (by decide)⟩,
    ⟨by decide,
      create_rollback.2.1 indexFails emptyState objA blank (.ErrOther 1) (by decide)
        (by decide)⟩,
    ⟨by decide,
      ((create_rollback.2.2 noFaults emptyState objA blank (by decide) (by decide)).mp
        (by decide)).2⟩⟩

/-! ## Update -/

theorem mem_of_mem_kvSet {α : Type} {k : Bytes} {v : α} {l : List (Bytes × α)}
    {x : Bytes × α} (h : x ∈ kvSet k v l) : x = (k, v) ∨ x ∈ l := by
  induction l with
  | nil => simpa [kvSet] using h
  | cons e t ih =>
    obtain ⟨k', v'⟩ := e
    by_cases h1 : k' = k
    · simp only [kvSet, h1, if_true] at h
      rcases List.mem_cons.mp h with h | h
      · exact Or.inl h
      · exact Or.inr (List.mem_cons_of_mem _ h)
    · by_cases hlt : bytesLt k k' = true
      · simp only [kvSet, h1, hlt, if_true, if_false] at h
        rcases List.mem_cons.mp h with h | h
        · exact Or.inl h
        · exact Or.inr h
      · have hlt2 : bytesLt k k' = false := by simpa using hlt
        simp only [kvSet, h1, hlt2, if_false, Bool.false_eq_true] at h
        rcases List.mem_cons.mp h with h | h
        · exact Or.inr (List.mem_cons.mpr (Or.inl h))
        · rcases ih h with h | h
          · exact Or.inl h
          · exact Or.inr (List.mem_cons_of_mem _ h)

theorem key_ne_of_absent {α : Type} {k : Bytes} {l : List (Bytes × α)}
    (h : kvGet k l = none) {x : Bytes × α} (hx : x ∈ l) : x.1 ≠ k := by
  induction l with
  | nil => simp at hx
  | cons e t ih =>
    obtain ⟨k', v'⟩ := e
    by_cases h1 : k' = k
    · simp [kvGet, h1] at h
    · simp only [kvGet, h1, if_false] at h
      rcases List.mem_cons.mp hx with hx | hx
      · subst hx; exact h1
      · exact ih h hx

theorem filter_kvSet_of_filter_nil {α : Type} (p : Bytes × α → Bool) (k : Bytes) (v : α)
    {l : List (Bytes × α)} (h : l.filter p = []) :
    (kvSet k v l).filter p = [(k, v)].filter p := by
  induction l with
  | nil => simp [kvSet]
  | cons e t ih =>
    obtain ⟨k', v'⟩ := e
    have hp : p (k', v') = false := by
      by_contra hc
      simp [List.filter_cons, hc] at h
    have ht : t.filter p = [] := by
      simpa [List.filter_cons, hp] using h
    by_cases h1 : k' = k
    · simp [kvSet, h1, List.filter_cons, ht]
    · by_cases hlt : bytesLt k k' = true
      · simp [kvSet, h1, hlt, List.filter_cons, ht, hp]
      · have hlt2 : bytesLt k k' = false := by simpa using hlt
        simp only [kvSet, h1, hlt2, if_false, Bool.false_eq_true]
        rw [List.filter_cons, hp]
        simpa using ih ht

theorem matchesAll_of_missing {sks have_ : List SecondaryKey}
    (h : ∃ sk ∈ sks, sk ∉ have_) : matchesAll sks have_ = false := by
  obtain ⟨sk, hm, hn⟩ := h
  simp only [matchesAll, List.all_eq_false]
  exact ⟨sk, hm, by simpa using hn⟩

theorem modelStore_Query_cursor (st : ModelState) (sks : List SecondaryKey) (start stop : Nat) :
    (modelStore.Query st sks start stop).cursor
      = some (newFilter (modelStore.Query st sks start stop).keys modelStore) := by
  by_cases h : sks.length = 0
  · simp [Store.Query, modelStore, objects.model, QueryResult.keys, newFilter, h]
  · simp [Store.Query, modelStore, indexes.model, QueryResult.keys, newFilter, h]

/-- State after a create that returned no error, of an object with a secondary key,
followed by an update under the same key. -/
theorem modelStore_Create_Update (st : ModelState) (o o2 : Object)
    (hpk : o2.PrimaryKey = o.PrimaryKey)
    (hc : (modelStore.Create st o).outcome = .returned none)
    (hk : o.SecondaryKeys ≠ []) :
    kvGet o.PrimaryKey st.objects = none ∧ kvGet o.PrimaryKey st.indexes = none ∧
    modelStore.Update (modelStore.Create st o).state o2
      = ⟨.returned none,
          ⟨kvSet o.PrimaryKey o2 (kvSet o.PrimaryKey o st.objects),
            kvSet o.PrimaryKey o2.SecondaryKeys st.indexes⟩,
          [.indexesDelete o.PrimaryKey, .indexesIndex o2, .objectsUpdate o2]⟩ := by
  obtain ⟨x, xs, hx⟩ := List.exists_cons_of_ne_nil hk
  simp only [modelStore, Store.Create, objects.model, indexes.model] at hc ⊢
  rcases hg : kvGet o.PrimaryKey st.objects with _ | y
  · rcases hi : kvGet o.PrimaryKey st.indexes with _ | z
    · simp [Store.Update, hpk, kvGet_kvSet_self, kvDelete_kvSet_of_absent, hi,
        kvGet_kvDelete_self, hx]
    · simp [hg, hi, kvGet_kvSet_self] at hc
  · simp [hg] at hc

/-- An update that returned no error right after the create of `o` under the same key:
`o` has a secondary key. -/
theorem keys_of_Create_Update (st : ModelState) (o o2 : Object)
    (hpk : o2.PrimaryKey = o.PrimaryKey)
    (hc : (modelStore.Create st o).outcome = .returned none)
    (hu : (modelStore.Update (modelStore.Create st o).state o2).outcome = .returned none) :
    o.SecondaryKeys ≠ [] := by
  intro hk
  simp only [modelStore, Store.Create, objects.model, indexes.model] at hc hu
  rcases hg : kvGet o.PrimaryKey st.objects with _ | y
  · rcases hi : kvGet o.PrimaryKey st.indexes with _ | z
    · simp [hg, hi, Store.Update, hpk, kvGet_kvSet_self, hk] at hu
    · simp [hg, hi, kvGet_kvSet_self] at hc
  · simp [hg] at hc

theorem matchesAll_of_subset {sks have_ : List SecondaryKey}
    (h : ∀ sk ∈ sks, sk ∈ have_) : matchesAll sks have_ = true := by
  simp only [matchesAll, List.all_eq_true, decide_eq_true_eq]
  exact h

/-- C5, counterexample.  (1) On the empty store, "a" with category x is created and then
updated to carry categories x and y: its secondary keys differ from the old ones, yet a
query by the old keys yields the primary key of "a".  (2) On the store holding "b" with
category x, "a" with category x is created and then updated to category y: a query by
the old keys of "a" is not empty, it yields the primary key of "b".  (3) On the store
holding "c" with category y, the same create and update: a query by the new keys of
"a" yields the primary key of "c" besides that of "a". -/
theorem update_consistency_counterexample :
    (objA3.PrimaryKey = objA.PrimaryKey ∧ objA3.SecondaryKeys ≠ objA.SecondaryKeys ∧
      (modelStore.Create emptyState objA).outcome = .returned none ∧
      (modelStore.Update (modelStore.Create emptyState objA).state objA3).outcome
        = .returned none ∧
      (modelStore.Query (modelStore.Update (modelStore.Create emptyState objA).state objA3).state
        objA.SecondaryKeys 0 0).keys = [objA.PrimaryKey]) ∧
    (objA2.PrimaryKey = objA.PrimaryKey ∧ objA2.SecondaryKeys ≠ objA.SecondaryKeys ∧
      (modelStore.Create emptyState objB).outcome = .returned none ∧
      (modelStore.Create (modelStore.Create emptyState objB).state objA).outcome
        = .returned none ∧
      (modelStore.Update
        (modelStore.Create (modelStore.Create emptyState objB).state objA).state objA2).outcome
        = .returned none ∧
      (modelStore.Query (modelStore.Update
        (modelStore.Create (modelStore.Create emptyState objB).state objA).state objA2).state
        objA.SecondaryKeys 0 0).keys = [objB.PrimaryKey]) ∧
    ((modelStore.Create emptyState objC).outcome = .returned none ∧
      (modelStore.Create (modelStore.Create emptyState objC).state objA).outcome
        = .returned none ∧
      (modelStore.Update
        (modelStore.Create (modelStore.Create emptyState objC).state objA).state objA2).outcome
        = .returned none ∧
      (modelStore.Query (modelStore.Update
        (modelStore.Create (modelStore.Create emptyState objC).state objA).state objA2).state
        objA2.SecondaryKeys 0 0).keys = [objA.PrimaryKey, objC.PrimaryKey]) := by
  decide

/-- C5 (update consistency), amended.  Over the collaborators of the specification, from
any state: let `o2` share the primary key of `o`, and let `Create o` have returned no
error.  `Update o2` returns no error whenever `o` has a secondary key.  When `Update o2`
returns no error: `Read` of the key yields `o2`; a query by the new secondary keys
yields the key, and yields the cursor over that key alone if it yielded nothing before
the create; a query by the old secondary keys does not yield the key when `o2` lacks
one of them, and then yields the empty cursor if it yielded nothing before the create;
it yields the key when `o2` carries all of them, and then yields the cursor over that
key alone if it yielded nothing before the create. -/
theorem update_consistency (st : ModelState) (o o2 out : Object)
    (hpk : o2.PrimaryKey = o.PrimaryKey)
    (hc : (modelStore.Create st o).outcome = .returned none) :
    (o.SecondaryKeys ≠ [] →
      (modelStore.Update (modelStore.Create st o).state o2).outcome = .returned none) ∧
    ((modelStore.Update (modelStore.Create st o).state o2).outcome = .returned none →
      modelStore.Read (modelStore.Update (modelStore.Create st o).state o2).state
          o.PrimaryKey out
        = ⟨none, o2, (modelStore.Update (modelStore.Create st o).state o2).state,
            [.objectsRead o.PrimaryKey]⟩ ∧
      o.PrimaryKey ∈
        (modelStore.Query (modelStore.Update (modelStore.Create st o).state o2).state
          o2.SecondaryKeys 0 0).keys ∧
      ((modelStore.Query st o2.SecondaryKeys 0 0).keys = [] →
        (modelStore.Query (modelStore.Update (modelStore.Create st o).state o2).state
          o2.SecondaryKeys 0 0).cursor = some (newFilter [o.PrimaryKey] modelStore)) ∧
      ((∃ sk ∈ o.SecondaryKeys, sk ∉ o2.SecondaryKeys) →
        o.PrimaryKey ∉
          (modelStore.Query (modelStore.Update (modelStore.Create st o).state o2).state
            o.SecondaryKeys 0 0).keys ∧
        ((modelStore.Query st o.SecondaryKeys 0 0).keys = [] →
          (modelStore.Query (modelStore.Update (modelStore.Create st o).state o2).state
            o.SecondaryKeys 0 0).cursor = some (newFilter [] modelStore))) ∧
      ((∀ sk ∈ o.SecondaryKeys, sk ∈ o2.SecondaryKeys) →
        o.PrimaryKey ∈
          (modelStore.Query (modelStore.Update (modelStore.Create st o).state o2).state
            o.SecondaryKeys 0 0).keys ∧
        ((modelStore.Query st o.SecondaryKeys 0 0).keys = [] →
          (modelStore.Query (modelStore.Update (modelStore.Create st o).state o2).state
            o.SecondaryKeys 0 0).cursor = some (newFilter [o.PrimaryKey] modelStore)))) := by
  refine ⟨fun hk => by rw [(modelStore_Create_Update st o o2 hpk hc hk).2.2], ?_⟩
  intro hu
  have hk := keys_of_Create_Update st o o2 hpk hc hu
  obtain ⟨hg, hi, hst⟩ := modelStore_Create_Update st o o2 hpk hc hk
  have hne : ¬ o.SecondaryKeys.length = 0 := by
    rw [List.length_eq_zero]; exact hk
  rw [hst]
  simp only [modelStore_Query_cursor, modelStore_Query_keys, hne, if_false]
  refine ⟨?_, ?_, ?_, ?_, ?_⟩
  · simp [modelStore, Store.Read, objects.model, kvGet_kvSet_self]
  · split
    · exact List.mem_map.mpr ⟨(o.PrimaryKey, o2), mem_kvSet_self _ _ _, rfl⟩
    · exact List.mem_map.mpr ⟨(o.PrimaryKey, o2.SecondaryKeys),
        List.mem_filter.mpr ⟨mem_kvSet_self _ _ _, matchesAll_self _⟩, rfl⟩
  · by_cases hn : o2.SecondaryKeys.length = 0
    · simp only [hn, if_true]
      intro h0
      rw [List.map_eq_nil_iff] at h0
      simp [h0, kvSet]
    · simp only [hn, if_false]
      intro h0
      rw [List.map_eq_nil_iff] at h0
      rw [filter_kvSet_of_filter_nil _ _ _ h0]
      simp [matchesAll_self]
  · intro hdiff
    have hmiss := matchesAll_of_missing hdiff
    refine ⟨?_, ?_⟩
    · intro hm
      obtain ⟨x, hx, hx1⟩ := List.mem_map.mp hm
      obtain ⟨hx2, hx3⟩ := List.mem_filter.mp hx
      rcases mem_of_mem_kvSet hx2 with h | h
      · subst h
        rw [hmiss] at hx3
        simp at hx3
      · exact key_ne_of_absent hi h hx1
    · intro h0
      rw [List.map_eq_nil_iff] at h0
      rw [filter_kvSet_of_filter_nil _ _ _ h0]
      simp [hmiss]
  · intro hsub
    have hall := matchesAll_of_subset hsub
    refine ⟨?_, ?_⟩
    · exact List.mem_map.mpr ⟨(o.PrimaryKey, o2.SecondaryKeys),
        List.mem_filter.mpr ⟨mem_kvSet_self _ _ _, hall⟩, rfl⟩
    · intro h0
      rw [List.map_eq_nil_iff] at h0
      rw [filter_kvSet_of_filter_nil _ _ _ h0]
      simp [hall]

/-- Witness of C5 on the empty store: "a" moves from category x to category y, and "a"
gains category y while keeping category x. -/
theorem update_consistency_witness :
    (objA2.PrimaryKey = objA.PrimaryKey ∧
      (modelStore.Create emptyState objA).outcome = .returned none ∧
      objA.SecondaryKeys ≠ [] ∧
      (modelStore.Update (modelStore.Create emptyState objA).state objA2).outcome
        = .returned none ∧
      (∃ sk ∈ objA.SecondaryKeys, sk ∉ objA2.SecondaryKeys) ∧
      (modelStore.Query emptyState objA.SecondaryKeys 0 0).keys = [] ∧
      (modelStore.Query emptyState objA2.SecondaryKeys 0 0).keys = [] ∧
      (modelStore.Read (modelStore.Update (modelStore.Create emptyState objA).state objA2).state
          objA.PrimaryKey blank).out = objA2 ∧
      (modelStore.Query (modelStore.Update (modelStore.Create emptyState objA).state objA2).state
          objA.SecondaryKeys 0 0).cursor = some (newFilter [] modelStore) ∧
      (modelStore.Query (modelStore.Update (modelStore.Create emptyState objA).state objA2).state
          objA2.SecondaryKeys 0 0).cursor = some (newFilter [objA.PrimaryKey] modelStore)) ∧
    (objA3.PrimaryKey = objA.PrimaryKey ∧
      (modelStore.Update (modelStore.Create emptyState objA).state objA3).outcome
        = .returned none ∧
      (∀ sk ∈ objA.SecondaryKeys, sk ∈ objA3.SecondaryKeys) ∧
      (modelStore.Read (modelStore.Update (modelStore.Create emptyState objA).state objA3).state
          objA.PrimaryKey blank).out = objA3 ∧
      (modelStore.Query (modelStore.Update (modelStore.Create emptyState objA).state objA3).state
          objA3.SecondaryKeys 0 0).cursor = some (newFilter [objA.PrimaryKey] modelStore) ∧
      (modelStore.Query (modelStore.Update (modelStore.Create emptyState objA).state objA3).state
          objA.SecondaryKeys 0 0).cursor = some (newFilter [objA.PrimaryKey] modelStore)) :=
  have h2 := update_consistency emptyState objA objA2 blank (by decide) (by decide)
  have h3 := update_consistency emptyState objA objA3 blank (by decide) (by decide)
  have u2 := h2.1 (by decide)
  have u3 := h3.1 (by decide)
  ⟨⟨by decide, by decide, by decide, u2, by decide, by decide, by decide,
      congrArg ReadResult.out (h2.2 u2).1, ((h2.2 u2).2.2.2.1 (by decide)).2 (by decide),
      (h2.2 u2).2.2.1 (by decide)⟩,
    ⟨by decide, u3, by decide, congrArg ReadResult.out (h3.2 u3).1,
      (h3.2 u3).2.2.1 (by decide), ((h3.2 u3).2.2.2.2 (by decide)).2 (by decide)⟩⟩

/-- C6 (update is atomic when the postings delete fails).
(1) Over any collaborators: if `indexes.Delete` of the primary key of `o` fails with
`e`, `Update o` returns exactly `e`, makes no other sub-store call (no `indexes.Index`,
no `objects.Update`), leaves the object records as they were and the index region as
the failed delete left it.
(2) Over the collaborators of the specification under any fault plan the failed delete
mutates nothing, so the whole state is unchanged. -/
theorem update_atomic_when_postings_delete_fails :
    (∀ {OS IS : Type} (S : Store OS IS) (st : State OS IS) (o : Object) (is1 : IS) (e : Error),
      S.indexes.Delete st.indexes o.PrimaryKey = (is1, some e) →
        S.Update st o
          = ⟨.returned (some e), ⟨st.objects, is1⟩, [.indexesDelete o.PrimaryKey]⟩) ∧
    (∀ (plan : Call → Option Error) (st : ModelState) (o : Object)
        (is1 : List (Bytes × List SecondaryKey)) (e : Error),
      (faultyStore plan).indexes.Delete st.indexes o.PrimaryKey = (is1, some e) →
        (faultyStore plan).Update st o
          = ⟨.returned (some e), st, [.indexesDelete o.PrimaryKey]⟩) := by
  refine ⟨?_, ?_⟩
  · intro OS IS S st o is1 e h
    simp [Store.Update, h]
  · intro plan st o is1 e h
    have hs : is1 = st.indexes := by
      simp only [faultyStore, indexes.faulty, indexes.model] at h
      rcases hp : plan (.indexesDelete o.PrimaryKey) with _ | e1
      · rcases hi : kvGet o.PrimaryKey st.indexes with _ | (_ | ⟨x, xs⟩)
        · simp only [hp, hi] at h
          exact (congrArg Prod.fst h).symm
        · simp only [hp, hi] at h
          exact (congrArg Prod.fst h).symm
        · simp [hp, hi] at h
      · simp only [hp] at h
        exact (congrArg Prod.fst h).symm
    subst hs
    simp [Store.Update, h]

/-- Witness of C6: an update on the empty store (`ErrNotFound`), and an update of "a"
whose postings delete fails by a storage fault. -/
theorem update_atomic_when_postings_delete_fails_witness :
    modelStore.indexes.Delete emptyState.indexes objA.PrimaryKey
        = ([], some .ErrNotFound) ∧
    modelStore.Update emptyState objA
      = ⟨.returned (some .ErrNotFound), emptyState, [.indexesDelete objA.PrimaryKey]⟩ ∧
    (faultyStore indexDeleteFails).indexes.Delete
        (modelStore.Create emptyState objA).state.indexes objA2.PrimaryKey
      = ((modelStore.Create emptyState objA).state.indexes, some (.ErrOther 3)) ∧
    (faultyStore indexDeleteFails).Update (modelStore.Create emptyState objA).state objA2
      = ⟨.returned (some (.ErrOther 3)), (modelStore.Create emptyState objA).state,
          [.indexesDelete objA2.PrimaryKey]⟩ :=
  ⟨by decide,
    update_atomic_when_postings_delete_fails.1 modelStore emptyState objA []
      .ErrNotFound (by decide),
    by decide,
    update_atomic_when_postings_delete_fails.2 indexDeleteFails
      (modelStore.Create emptyState objA).state objA2
      (modelStore.Create emptyState objA).state.indexes (.ErrOther 3) (by decide)⟩

/-! ## Delete -/

/-- State after a create that returned no error, of an object with a secondary key,
followed by a delete of the same key. -/
theorem modelStore_Create_Delete (st : ModelState) (o : Object)
    (hc : (modelStore.Create st o).outcome = .returned none)
    (hk : o.SecondaryKeys ≠ []) :
    kvGet o.PrimaryKey st.objects = none ∧ kvGet o.PrimaryKey st.indexes = none ∧
    modelStore.Delete (modelStore.Create st o).state o.PrimaryKey
      = ⟨.returned none, st, [.indexesDelete o.PrimaryKey, .objectsDelete o.PrimaryKey]⟩ := by
  obtain ⟨x, xs, hx⟩ := List.exists_cons_of_ne_nil hk
  simp only [modelStore, Store.Create, objects.model, indexes.model] at hc ⊢
  rcases hg : kvGet o.PrimaryKey st.objects with _ | y
  · rcases hi : kvGet o.PrimaryKey st.indexes with _ | z
    · simp [Store.Delete, kvGet_kvSet_self, kvDelete_kvSet_of_absent, hi, hg, hx]
    · simp [hg, hi, kvGet_kvSet_self] at hc
  · simp [hg] at hc

theorem not_mem_keys_of_absent {α : Type} {k : Bytes} {l : List (Bytes × α)}
    (h : kvGet k l = none) : k ∉ l.map Prod.fst := by
  intro hm
  obtain ⟨x, hx, hx1⟩ := List.mem_map.mp hm
  exact key_ne_of_absent h hx hx1

theorem mem_of_mem_bounded {start stop : Nat} {pks : List Bytes} {k : Bytes}
    (h : k ∈ bounded start stop pks) : k ∈ pks := by
  unfold bounded at h
  split at h
  · exact List.mem_of_mem_drop (List.mem_of_mem_take h)
  · exact h

/-- Keys of a query over the model collaborators. -/
theorem modelStore_Query_keys_bounded (st : ModelState) (sks : List SecondaryKey)
    (start stop : Nat) :
    (modelStore.Query st sks start stop).keys =
      bounded start stop
        (if sks.length = 0 then st.objects.map Prod.fst
         else (st.indexes.filter (fun e => matchesAll sks e.2)).map Prod.fst) := by
  by_cases h : sks.length = 0
  · simp [Store.Query, modelStore, objects.model, QueryResult.keys, newFilter, h]
  · simp [Store.Query, modelStore, indexes.model, QueryResult.keys, newFilter, h]

/-- C7, counterexample.  (1) On the store holding "b" with category x, "a" with category x
is created and then deleted: the delete returns no error, yet a query by the secondary
key of "a" is not empty, it yields the primary key of "b".  (2) On the empty store "z",
an object without secondary keys, is created: it has no postings, so the delete returns
`ErrNotFound` after the call of `indexes.Delete` and `Read` still yields "z". -/
theorem delete_after_create_counterexample :
    ((modelStore.Create emptyState objB).outcome = .returned none ∧
      (modelStore.Create (modelStore.Create emptyState objB).state objA).outcome
        = .returned none ∧
      (modelStore.Delete (modelStore.Create (modelStore.Create emptyState objB).state objA).state
        objA.PrimaryKey).outcome = .returned none ∧
      skX ∈ objA.SecondaryKeys ∧
      (modelStore.Query
        (modelStore.Delete
          (modelStore.Create (modelStore.Create emptyState objB).state objA).state
          objA.PrimaryKey).state [skX] 0 0).keys = [objB.PrimaryKey]) ∧
    (objZ.SecondaryKeys = [] ∧
      (modelStore.Create emptyState objZ).outcome = .returned none ∧
      modelStore.Delete (modelStore.Create emptyState objZ).state objZ.PrimaryKey
        = ⟨.returned (some .ErrNotFound), (modelStore.Create emptyState objZ).state,
            [.indexesDelete objZ.PrimaryKey]⟩ ∧
      modelStore.Read
          (modelStore.Delete (modelStore.Create emptyState objZ).state objZ.PrimaryKey).state
          objZ.PrimaryKey blank
        = ⟨none, objZ, (modelStore.Create emptyState objZ).state,
            [.objectsRead objZ.PrimaryKey]⟩) := by
  decide

/-- C7 (delete removes object and index), amended.  Over the collaborators of the
specification, from any state, for an object `o` with at least one secondary key: after
a `Create o` that returned no error, `Delete` of the key returns no error and leaves
exactly the state before the create; `Read` of the key returns `ErrNotFound`; every
query succeeds, yields what it yielded before the create, and does not yield the key;
indexing `o` on the index store succeeds again. -/
theorem delete_after_create (st : ModelState) (o out : Object)
    (hc : (modelStore.Create st o).outcome = .returned none)
    (hk : o.SecondaryKeys ≠ []) :
    modelStore.Delete (modelStore.Create st o).state o.PrimaryKey
      = ⟨.returned none, st, [.indexesDelete o.PrimaryKey, .objectsDelete o.PrimaryKey]⟩ ∧
    modelStore.Read (modelStore.Delete (modelStore.Create st o).state o.PrimaryKey).state
        o.PrimaryKey out
      = ⟨some .ErrNotFound, out, st, [.objectsRead o.PrimaryKey]⟩ ∧
    (∀ (sks : List SecondaryKey) (start stop : Nat),
      (modelStore.Query (modelStore.Delete (modelStore.Create st o).state o.PrimaryKey).state
        sks start stop).err = none ∧
      (modelStore.Query (modelStore.Delete (modelStore.Create st o).state o.PrimaryKey).state
        sks start stop).keys = (modelStore.Query st sks start stop).keys ∧
      o.PrimaryKey ∉
        (modelStore.Query (modelStore.Delete (modelStore.Create st o).state o.PrimaryKey).state
          sks start stop).keys) ∧
    modelStore.indexes.Index
        (modelStore.Delete (modelStore.Create st o).state o.PrimaryKey).state.indexes o
      = (kvSet o.PrimaryKey o.SecondaryKeys st.indexes, none) := by
  obtain ⟨hg, hi, hd⟩ := modelStore_Create_Delete st o hc hk
  rw [hd]
  refine ⟨rfl, ?_, ?_, ?_⟩
  · simp [modelStore, Store.Read, objects.model, hg]
  · intro sks start stop
    refine ⟨?_, rfl, ?_⟩
    · by_cases h : sks.length = 0
      · simp [Store.Query, modelStore, objects.model, h]
      · simp [Store.Query, modelStore, indexes.model, h]
    · rw [modelStore_Query_keys_bounded]
      intro hm
      have hm2 := mem_of_mem_bounded hm
      split at hm2
      · exact not_mem_keys_of_absent hg hm2
      · obtain ⟨x, hx, hx1⟩ := List.mem_map.mp hm2
        exact key_ne_of_absent hi (List.mem_filter.mp hx).1 hx1
  · simp [modelStore, indexes.model, hi]

/-- Witness of C7 on the empty store with object "a". -/
theorem delete_after_create_witness :
    (modelStore.Create emptyState objA).outcome = .returned none ∧
    objA.SecondaryKeys ≠ [] ∧
    (modelStore.Delete (modelStore.Create emptyState objA).state objA.PrimaryKey).outcome
      = .returned none ∧
    (modelStore.Read
        (modelStore.Delete (modelStore.Create emptyState objA).state objA.PrimaryKey).state
        objA.PrimaryKey blank).err = some .ErrNotFound ∧
    (modelStore.Query
        (modelStore.Delete (modelStore.Create emptyState objA).state objA.PrimaryKey).state
        [skX] 0 0).keys = (modelStore.Query emptyState [skX] 0 0).keys ∧
    (modelStore.indexes.Index
        (modelStore.Delete (modelStore.Create emptyState objA).state objA.PrimaryKey).state.indexes
        objA).2 = none :=
  have h := delete_after_create emptyState objA blank (by decide) (by decide)
  ⟨by decide, by decide, congrArg Result.outcome h.1, congrArg ReadResult.err h.2.1,
    (h.2.2.1 [skX] 0 0).2.1, congrArg Prod.snd h.2.2.2⟩

/-- C8 (delete of a missing key).
(1) Over any collaborators: if `indexes.Delete` of the key fails with `e`, `Delete`
returns `e` after that single call (`objects.Delete` is not called), leaves the object
records as they were and the index region as the failed delete left it.
(2) Over the collaborators of the specification: for a primary key without record, in
a state that satisfies I2 (hence without postings) or in which the key has no postings,
`Delete` returns `ErrNotFound`, does not call `objects.Delete`, and leaves the state
unchanged. -/
theorem delete_missing_key :
    (∀ {OS IS : Type} (S : Store OS IS) (st : State OS IS) (primaryKey : Bytes) (is1 : IS)
        (e : Error),
      S.indexes.Delete st.indexes primaryKey = (is1, some e) →
        S.Delete st primaryKey
          = ⟨.returned (some e), ⟨st.objects, is1⟩, [.indexesDelete primaryKey]⟩) ∧
    (∀ (st : ModelState) (primaryKey : Bytes),
      kvGet primaryKey st.objects = none →
      (I2 st ∨ kvGet primaryKey st.indexes = none) →
        modelStore.Delete st primaryKey
          = ⟨.returned (some .ErrNotFound), st, [.indexesDelete primaryKey]⟩ ∧
        Call.objectsDelete primaryKey ∉ (modelStore.Delete st primaryKey).calls) := by
  refine ⟨?_, ?_⟩
  · intro OS IS S st primaryKey is1 e h
    simp [Store.Delete, h]
  · intro st primaryKey hrec hpost
    have hi : kvGet primaryKey st.indexes = none := by
      rcases hpost with h | h
      · exact I2_absent h hrec
      · exact h
    simp [modelStore, Store.Delete, indexes.model, hi]

/-- Witness of C8: deleting "b" from the store that holds only "a". -/
theorem delete_missing_key_witness :
    modelStore.indexes.Delete stateA.indexes objB.PrimaryKey
      = (stateA.indexes, some .ErrNotFound) ∧
    kvGet objB.PrimaryKey stateA.objects = none ∧
    I2 stateA ∧
    modelStore.Delete stateA objB.PrimaryKey
      = ⟨.returned (some .ErrNotFound), stateA, [.indexesDelete objB.PrimaryKey]⟩ ∧
    Call.objectsDelete objB.PrimaryKey ∉ (modelStore.Delete stateA objB.PrimaryKey).calls :=
  have hI : I2 stateA := by
    intro pk
    by_cases h : pk = objA.PrimaryKey
    · subst h; decide
    · have h2 : ¬ ([97] : Bytes) = pk := fun e => h e.symm
      simp [stateA, modelStore, Store.Create, objects.model, indexes.model, emptyState, kvGet,
        kvSet, objA, h2]
  ⟨by decide, by decide, hI,
    delete_missing_key.1 modelStore stateA objB.PrimaryKey stateA.indexes .ErrNotFound
      (by decide),
    (delete_missing_key.2 stateA objB.PrimaryKey (by decide) (Or.inl hI)).2⟩

/-! ## Fatal aborts -/

/-- C9 (corruption is never returned as an ordinary error).  Over any collaborators and
from any state.  `Update`: once `indexes.Delete` has succeeded, a failing
`indexes.Index` or a failing `objects.Update` makes the call panic with that error, the
call returns `nil` when both succeed, and it returns no error value at all; an error
`Update` returns is the error of the initial `indexes.Delete`.  `Delete`: once
`indexes.Delete` has succeeded, a failing `objects.Delete` makes the call panic, the
call returns `nil` otherwise; an error `Delete` returns is the error of the initial
`indexes.Delete`. -/
theorem corruption_never_returned {OS IS : Type} (S : Store OS IS) (st : State OS IS) :
    (∀ (o : Object) (is1 : IS),
      S.indexes.Delete st.indexes o.PrimaryKey = (is1, none) →
        (∀ e, (S.indexes.Index is1 o).2 = some e →
          (S.Update st o).outcome = .panicked [e]) ∧
        (∀ e, (S.indexes.Index is1 o).2 = none → (S.objects.Update st.objects o).2 = some e →
          (S.Update st o).outcome = .panicked [e]) ∧
        ((S.indexes.Index is1 o).2 = none → (S.objects.Update st.objects o).2 = none →
          (S.Update st o).outcome = .returned none) ∧
        (∀ e, (S.Update st o).outcome ≠ .returned (some e))) ∧
    (∀ (o : Object) (e : Error),
      (S.Update st o).outcome = .returned (some e) →
        (S.indexes.Delete st.indexes o.PrimaryKey).2 = some e) ∧
    (∀ (primaryKey : Bytes) (is1 : IS),
      S.indexes.Delete st.indexes primaryKey = (is1, none) →
        (∀ e, (S.objects.Delete st.objects primaryKey).2 = some e →
          (S.Delete st primaryKey).outcome = .panicked [e]) ∧
        ((S.objects.Delete st.objects primaryKey).2 = none →
          (S.Delete st primaryKey).outcome = .returned none) ∧
        (∀ e, (S.Delete st primaryKey).outcome ≠ .returned (some e))) ∧
    (∀ (primaryKey : Bytes) (e : Error),
      (S.Delete st primaryKey).outcome = .returned (some e) →
        (S.indexes.Delete st.indexes primaryKey).2 = some e) := by
  refine ⟨?_, ?_, ?_, ?_⟩
  · intro o is1 hd
    rcases hx : S.indexes.Index is1 o with ⟨is2, _ | e2⟩
    · rcases hu : S.objects.Update st.objects o with ⟨os1, _ | e3⟩ <;>
        simp [Store.Update, hd, hx, hu]
    · simp [Store.Update, hd, hx]
  · intro o e
    rcases hd : S.indexes.Delete st.indexes o.PrimaryKey with ⟨is1, _ | e1⟩
    · rcases hx : S.indexes.Index is1 o with ⟨is2, _ | e2⟩
      · rcases hu : S.objects.Update st.objects o with ⟨os1, _ | e3⟩ <;>
          simp [Store.Update, hd, hx, hu]
      · simp [Store.Update, hd, hx]
    · simp [Store.Update, hd]
  · intro pk is1 hd
    rcases hu : S.objects.Delete st.objects pk with ⟨os1, _ | e3⟩ <;>
      simp [Store.Delete, hd, hu]
  · intro pk e
    rcases hd : S.indexes.Delete st.indexes pk with ⟨is1, _ | e1⟩
    · rcases hu : S.objects.Delete st.objects pk with ⟨os1, _ | e3⟩ <;>
        simp [Store.Delete, hd, hu]
    · simp [Store.Delete, hd]

/-- Witness of C9 on the store holding "a": the re-indexing fails, the overwrite fails,
the record delete fails (each by a storage fault), and the calls without fault; on the
empty store the initial postings delete fails with `ErrNotFound`. -/
theorem corruption_never_returned_witness :
    ((faultyStore reindexFails).Update stateA objA2).outcome = .panicked [.ErrOther 4] ∧
    ((faultyStore overwriteFails).Update stateA objA2).outcome = .panicked [.ErrOther 5] ∧
    (modelStore.Update stateA objA2).outcome = .returned none ∧
    ((modelStore.Update emptyState objA).outcome = .returned (some .ErrNotFound) ∧
      (modelStore.indexes.Delete emptyState.indexes objA.PrimaryKey).2
        = some .ErrNotFound) ∧
    ((faultyStore indexAndDeleteFail).Delete stateA objA.PrimaryKey).outcome
      = .panicked [.ErrOther 2] ∧
    (modelStore.Delete stateA objA.PrimaryKey).outcome = .returned none ∧
    ((modelStore.Delete emptyState objA.PrimaryKey).outcome = .returned (some .ErrNotFound) ∧
      (modelStore.indexes.Delete emptyState.indexes objA.PrimaryKey).2
        = some .ErrNotFound) :=
  ⟨((corruption_never_returned (faultyStore reindexFails) stateA).1 objA2 []
      (by decide)).1 (.ErrOther 4) (by decide),
    ((corruption_never_returned (faultyStore overwriteFails) stateA).1 objA2 []
      (by decide)).2.1 (.ErrOther 5) (by decide) (by decide),
    ((corruption_never_returned modelStore stateA).1 objA2 []
      (by decide)).2.2.1 (by decide) (by decide),
    ⟨by decide,
      (corruption_never_returned modelStore emptyState).2.1 objA .ErrNotFound (by decide)⟩,
    ((corruption_never_returned (faultyStore indexAndDeleteFail) stateA).2.2.1 objA.PrimaryKey []
      (by decide)).1 (.ErrOther 2) (by decide),
    ((corruption_never_returned modelStore stateA).2.2.1 objA.PrimaryKey []
      (by decide)).2.1 (by decide),
    ⟨by decide,
      (corruption_never_returned modelStore emptyState).2.2.2 objA.PrimaryKey .ErrNotFound
        (by decide)⟩⟩

/-! ## Query -/

/-- C10 (query dispatch).
(1) Over any collaborators: `Query` makes exactly one sub-store call, with the same
range arguments: `objects.GetAllKeys` when `sks` is empty, `indexes.Filter` otherwise.
It returns the error of that call; it returns no cursor when that call fails; when
that call succeeds it returns the cursor at position 0 over exactly the key sequence
the call returned, `maxKeys` being its length.  The state afterwards is the state that
single call left.
(2) Over the collaborators of the specification under any fault plan that call mutates
nothing: `Query` leaves the state unchanged. -/
theorem query_dispatch :
    (∀ {OS IS : Type} (S : Store OS IS) (st : State OS IS) (sks : List SecondaryKey)
        (start stop : Nat),
      (sks = [] →
        (S.Query st sks start stop).err = (S.objects.GetAllKeys st.objects start stop).2.2 ∧
        (S.Query st sks start stop).state
          = ⟨(S.objects.GetAllKeys st.objects start stop).1, st.indexes⟩ ∧
        (S.Query st sks start stop).calls = [.objectsGetAllKeys start stop] ∧
        ((S.objects.GetAllKeys st.objects start stop).2.2 ≠ none →
          (S.Query st sks start stop).cursor = none) ∧
        ((S.objects.GetAllKeys st.objects start stop).2.2 = none →
          (S.Query st sks start stop).cursor
            = some ⟨((S.objects.GetAllKeys st.objects start stop).2.1.length : Int), 0,
                (S.objects.GetAllKeys st.objects start stop).2.1, S⟩)) ∧
      (sks ≠ [] →
        (S.Query st sks start stop).err = (S.indexes.Filter st.indexes sks start stop).2.2 ∧
        (S.Query st sks start stop).state
          = ⟨st.objects, (S.indexes.Filter st.indexes sks start stop).1⟩ ∧
        (S.Query st sks start stop).calls = [.indexesFilter sks start stop] ∧
        ((S.indexes.Filter st.indexes sks start stop).2.2 ≠ none →
          (S.Query st sks start stop).cursor = none) ∧
        ((S.indexes.Filter st.indexes sks start stop).2.2 = none →
          (S.Query st sks start stop).cursor
            = some ⟨((S.indexes.Filter st.indexes sks start stop).2.1.length : Int), 0,
                (S.indexes.Filter st.indexes sks start stop).2.1, S⟩))) ∧
    (∀ (plan : Call → Option Error) (st : ModelState) (sks : List SecondaryKey)
        (start stop : Nat),
      ((faultyStore plan).Query st sks start stop).state = st) := by
  refine ⟨?_, ?_⟩
  · intro OS IS S st sks start stop
    refine ⟨?_, ?_⟩
    · intro h
      subst h
      rcases hu : S.objects.GetAllKeys st.objects start stop with ⟨os1, pks, _ | e⟩ <;>
        simp [Store.Query, hu, newFilter]
    · intro h
      have hl : ¬ sks.length = 0 := by
        rw [List.length_eq_zero]; exact h
      rcases hu : S.indexes.Filter st.indexes sks start stop with ⟨is1, pks, _ | e⟩ <;>
        simp [Store.Query, hu, newFilter, hl]
  · intro plan st sks start stop
    by_cases hl : sks.length = 0
    · simp only [Store.Query, hl, if_true, faultyStore, objects.faulty, objects.model]
      rcases plan (.objectsGetAllKeys start stop) with _ | e <;> rfl
    · simp only [Store.Query, hl, if_false, faultyStore, indexes.faulty, indexes.model]
      rcases plan (.indexesFilter sks start stop) with _ | e <;> rfl

/-- Witness of C10 on the store holding "a": the unfiltered query, a query by a secondary
key of "a", a query by another secondary key, an unfiltered query whose enumeration
fails, and a filtered query whose filter fails. -/
theorem query_dispatch_witness :
    (modelStore.Query stateA [] 0 0).cursor
      = some ⟨1, 0, [objA.PrimaryKey], modelStore⟩ ∧
    (modelStore.Query stateA [skX] 0 0).cursor
      = some ⟨1, 0, [objA.PrimaryKey], modelStore⟩ ∧
    (modelStore.Query stateA [skY] 0 0).cursor = some ⟨0, 0, [], modelStore⟩ ∧
    (((faultyStore enumerationFails).objects.GetAllKeys stateA.objects 0 0).2.2
        = some (.ErrOther 6) ∧
      ((faultyStore enumerationFails).Query stateA [] 0 0).err = some (.ErrOther 6) ∧
      ((faultyStore enumerationFails).Query stateA [] 0 0).cursor = none) ∧
    (((faultyStore filterFails).indexes.Filter stateA.indexes [skX] 0 0).2.2
        = some (.ErrOther 7) ∧
      ((faultyStore filterFails).Query stateA [skX] 0 0).err = some (.ErrOther 7) ∧
      ((faultyStore filterFails).Query stateA [skX] 0 0).cursor = none) ∧
    ((faultyStore enumerationFails).Query stateA [] 0 0).state = stateA :=
  ⟨((query_dispatch.1 modelStore stateA [] 0 0).1 rfl).2.2.2.2 (by decide),
    ((query_dispatch.1 modelStore stateA [skX] 0 0).2 (by decide)).2.2.2.2 (by decide),
    ((query_dispatch.1 modelStore stateA [skY] 0 0).2 (by decide)).2.2.2.2 (by decide),
    ⟨by decide,
      ((query_dispatch.1 (faultyStore enumerationFails) stateA [] 0 0).1 rfl).1,
      ((query_dispatch.1 (faultyStore enumerationFails) stateA [] 0 0).1 rfl).2.2.2.1
        (by decide)⟩,
    ⟨by decide,
      ((query_dispatch.1 (faultyStore filterFails) stateA [skX] 0 0).2 (by decide)).1,
      ((query_dispatch.1 (faultyStore filterFails) stateA [skX] 0 0).2 (by decide)).2.2.2.1
        (by decide)⟩,
    query_dispatch.2 enumerationFails stateA [] 0 0⟩

/-! ## Cursor -/

theorem nextN_succ (k : Nat) (c : Cursor OS IS) : c.nextN (k + 1) = (c.nextN k).Next := by
  simp only [Cursor.nextN]
  exact Function.iterate_succ_apply' Cursor.Next k c

theorem nextN_newFilter (keys : List Bytes) (s : Store OS IS) (k : Nat) :
    (newFilter keys s).nextN k
      = ⟨(keys.length : Int), ((min k keys.length : Nat) : Int), keys, s⟩ := by
  induction k with
  | zero => simp [Cursor.nextN, newFilter]
  | succ k ih =>
    rw [nextN_succ, ih]
    by_cases h : k < keys.length
    · have h1 : min k keys.length = k := Nat.min_eq_left (Nat.le_of_lt h)
      have h2 : min (k + 1) keys.length = k + 1 := Nat.min_eq_left h
      have h3 : (k : Int) < (keys.length : Int) := by exact_mod_cast h
      simp [Cursor.Next, h1, h2, h3]
    · have hle : keys.length ≤ k := Nat.le_of_not_lt h
      have h1 : min k keys.length = keys.length := Nat.min_eq_right hle
      have h2 : min (k + 1) keys.length = keys.length :=
        Nat.min_eq_right (Nat.le_succ_of_le hle)
      simp [Cursor.Next, h1, h2]

/-- C12 (cursor position).  For the cursor `newFilter` builds over a key sequence of
length `N`, on any store: after `k` calls of `Next` the cursor is the same but for its
position, which is `min k N`; `Valid` is true if and only if `k < N`; so `Valid` is
false after the `N`-th call and true after each smaller number of calls.  On any cursor
that is not valid `Next` changes nothing. -/
theorem cursor_position :
    (∀ {OS IS : Type} (keys : List Bytes) (s : Store OS IS) (k : Nat),
      (newFilter keys s).nextN k
        = ⟨(keys.length : Int), ((min k keys.length : Nat) : Int), keys, s⟩ ∧
      (((newFilter keys s).nextN k).Valid = true ↔ k < keys.length)) ∧
    (∀ {OS IS : Type} (keys : List Bytes) (s : Store OS IS),
      ((newFilter keys s).nextN keys.length).Valid = false ∧
      ∀ j, j < keys.length → ((newFilter keys s).nextN j).Valid = true) ∧
    (∀ {OS IS : Type} (c : Cursor OS IS), c.Valid = false → c.Next = c) := by
  have hv : ∀ {OS IS : Type} (keys : List Bytes) (s : Store OS IS) (k : Nat),
      (((newFilter keys s).nextN k).Valid = true ↔ k < keys.length) := by
    intro OS IS keys s k
    rw [nextN_newFilter]
    simp only [Cursor.Valid, decide_eq_true_eq]
    constructor
    · intro h
      have h' : min k keys.length < keys.length := by exact_mod_cast h
      exact lt_of_not_le (fun hle => by
        rw [Nat.min_eq_right hle] at h'
        exact Nat.lt_irrefl _ h')
    · intro h
      rw [Nat.min_eq_left (Nat.le_of_lt h)]
      exact_mod_cast h
  refine ⟨fun keys s k => ⟨nextN_newFilter keys s k, hv keys s k⟩, ?_, ?_⟩
  · intro OS IS keys s
    refine ⟨?_, fun j hj => (hv keys s j).mpr hj⟩
    cases hb : ((newFilter keys s).nextN keys.length).Valid with
    | false => rfl
    | true => exact absurd ((hv keys s keys.length).mp hb) (Nat.lt_irrefl _)
  · intro OS IS c h
    have h' : ¬ c.keyIndex < c.maxKeys := by
      simpa [Cursor.Valid] using h
    simp [Cursor.Next, h']

/-- Witness of C12 on a fresh cursor over two keys: positions after 1, 2 and 5 calls of
`Next`, validity, and `Next` on the exhausted cursor. -/
theorem cursor_position_witness :
    (cursorAB.nextN 1).keyIndex = 1 ∧ (cursorAB.nextN 2).keyIndex = 2 ∧
    (cursorAB.nextN 5).keyIndex = 2 ∧
    (cursorAB.nextN 1).Valid = true ∧ (cursorAB.nextN 2).Valid = false ∧
    (cursorAB.nextN 2).Next = cursorAB.nextN 2 :=
  ⟨congrArg Cursor.keyIndex (cursor_position.1 [objA.PrimaryKey, objB.PrimaryKey] modelStore 1).1,
    congrArg Cursor.keyIndex (cursor_position.1 [objA.PrimaryKey, objB.PrimaryKey] modelStore 2).1,
    congrArg Cursor.keyIndex (cursor_position.1 [objA.PrimaryKey, objB.PrimaryKey] modelStore 5).1,
    (cursor_position.1 [objA.PrimaryKey, objB.PrimaryKey] modelStore 1).2.mpr (by decide),
    (cursor_position.2.1 [objA.PrimaryKey, objB.PrimaryKey] modelStore).1,
    cursor_position.2.2 (cursorAB.nextN 2)
      (cursor_position.2.1 [objA.PrimaryKey, objB.PrimaryKey] modelStore).1⟩

/-- The key under the position of a cursor within its bounds that is valid. -/
theorem currKey_of_valid {c : Cursor OS IS} (hinv : c.Inv) (hv : c.Valid = true) :
    ∃ key, c.keys[c.keyIndex.toNat]? = some key ∧ c.currKey = some key := by
  obtain ⟨h0, _, hm⟩ := hinv
  have hlt : c.keyIndex < c.maxKeys := by simpa [Cursor.Valid] using hv
  have hn : c.keyIndex.toNat < c.keys.length := by
    have : ((c.keyIndex.toNat : Nat) : Int) < (c.keys.length : Int) := by
      rw [Int.toNat_of_nonneg h0, ← hm]; exact hlt
    exact_mod_cast this
  refine ⟨c.keys[c.keyIndex.toNat], ?_, ?_⟩
  · exact List.getElem?_eq_getElem hn
  · simp [Cursor.currKey, h0, List.getElem?_eq_getElem hn]

/-- The position of a cursor within its bounds that is not valid is out of range. -/
theorem currKey_of_not_valid {c : Cursor OS IS} (hinv : c.Inv) (hv : c.Valid = false) :
    c.currKey = none := by
  obtain ⟨h0, _, hm⟩ := hinv
  have hge : c.maxKeys ≤ c.keyIndex := by
    have : ¬ c.keyIndex < c.maxKeys := by simpa [Cursor.Valid] using hv
    exact Int.not_lt.mp this
  have hn : c.keys.length ≤ c.keyIndex.toNat := by
    have : (c.keys.length : Int) ≤ ((c.keyIndex.toNat : Nat) : Int) := by
      rw [Int.toNat_of_nonneg h0, ← hm]; exact hge
    exact_mod_cast this
  simp [Cursor.currKey, h0, List.getElem?_eq_none hn]

/-- The cursor `newFilter` builds is within its bounds. -/
theorem Inv_newFilter {OS IS : Type} (keys : List Bytes) (s : Store OS IS) :
    (newFilter keys s).Inv := by
  simp [Cursor.Inv, newFilter]

/-- `Next` keeps a cursor within its bounds. -/
theorem Inv_Next {OS IS : Type} (c : Cursor OS IS) (h : c.Inv) : c.Next.Inv := by
  obtain ⟨h0, h1, hm⟩ := h
  by_cases hlt : c.keyIndex < c.maxKeys
  · simp only [Cursor.Next, hlt, if_true, Cursor.Inv]
    exact ⟨by omega, by omega, hm⟩
  · simp only [Cursor.Next, hlt, if_false]
    exact ⟨h0, h1, hm⟩

/-- C16 (cursor bounds).  On any store: the cursor `newFilter` builds satisfies
`0 <= keyIndex <= maxKeys` and `maxKeys == len(keys)`; `Next` preserves this, and so do
`Read`, `Delete` and `Update`.  On a cursor within these bounds that is valid the index
of `currKey` is in range: `Read` and `Delete` do not panic on the index and hand
exactly `keys[keyIndex]` to `Store.Read` and `Store.Delete`. -/
theorem cursor_bounds :
    (∀ {OS IS : Type} (keys : List Bytes) (s : Store OS IS), (newFilter keys s).Inv) ∧
    (∀ {OS IS : Type} (c : Cursor OS IS), c.Inv → c.Next.Inv) ∧
    (∀ {OS IS : Type} (c : Cursor OS IS) (st : State OS IS) (o : Object), c.Inv →
      (c.Read st o).cursor.Inv ∧ (c.Delete st).cursor.Inv ∧ (c.Update st o).cursor.Inv) ∧
    (∀ {OS IS : Type} (c : Cursor OS IS) (st : State OS IS) (o : Object),
      c.Inv → c.Valid = true →
        ∃ key, c.keys[c.keyIndex.toNat]? = some key ∧ c.currKey = some key ∧
          c.Read st o
            = ⟨.ended (.returned (c.store.Read st key o).err), (c.store.Read st key o).out, c,
                (c.store.Read st key o).state, (c.store.Read st key o).calls⟩ ∧
          c.Delete st
            = ⟨.ended (c.store.Delete st key).outcome, c, (c.store.Delete st key).state,
                (c.store.Delete st key).calls⟩) := by
  refine ⟨?_, ?_, ?_, ?_⟩
  · intro OS IS keys s
    exact Inv_newFilter keys s
  · intro OS IS c h
    exact Inv_Next c h
  · intro OS IS c st o h
    refine ⟨?_, ?_, h⟩
    · simp only [Cursor.Read]; split <;> exact h
    · simp only [Cursor.Delete]; split <;> exact h
  · intro OS IS c st o hinv hv
    obtain ⟨key, hk, hc⟩ := currKey_of_valid hinv hv
    exact ⟨key, hk, hc, by simp [Cursor.Read, hc], by simp [Cursor.Delete, hc]⟩

/-- Witness of C16 on the cursor over the key of "a", on the store holding "a". -/
theorem cursor_bounds_witness :
    cursorA.Inv ∧ cursorA.Next.Inv ∧ (cursorA.Read stateA blank).cursor.Inv ∧
    cursorA.Valid = true ∧
    (∃ key, cursorA.keys[cursorA.keyIndex.toNat]? = some key ∧ cursorA.currKey = some key ∧
      cursorA.Read stateA blank
        = ⟨.ended (.returned (cursorA.store.Read stateA key blank).err),
            (cursorA.store.Read stateA key blank).out, cursorA,
            (cursorA.store.Read stateA key blank).state,
            (cursorA.store.Read stateA key blank).calls⟩ ∧
      cursorA.Delete stateA
        = ⟨.ended (cursorA.store.Delete stateA key).outcome, cursorA,
            (cursorA.store.Delete stateA key).state,
            (cursorA.store.Delete stateA key).calls⟩) ∧
    (cursorA.Read stateA blank).out = objA :=
  have hinv : cursorA.Inv := cursor_bounds.1 [objA.PrimaryKey] modelStore
  ⟨hinv, cursor_bounds.2.1 cursorA hinv, (cursor_bounds.2.2.1 cursorA stateA blank hinv).1,
    by decide, cursor_bounds.2.2.2 cursorA stateA blank hinv (by decide), by decide⟩

/-- C13, counterexample.  On the store holding "a": the cursor over the key of "a" after
one `Next` is exhausted (position 1 of 1), and so is a fresh cursor over no key; on
each of them `Update` of the changed "a" returns no error and changes the store. -/
theorem exhausted_cursor_counterexample :
    (cursorA.Next.Valid = false ∧ cursorA.Next.keyIndex = (cursorA.Next.keys.length : Int) ∧
      (cursorA.Next.Update stateA objA2).outcome = .ended (.returned none) ∧
      (cursorA.Next.Update stateA objA2).state ≠ stateA) ∧
    ((newFilter [] modelStore).Valid = false ∧
      ((newFilter [] modelStore).Update stateA objA2).outcome = .ended (.returned none) ∧
      ((newFilter [] modelStore).Update stateA objA2).state ≠ stateA) := by
  decide

/-- C13 (operations on an exhausted cursor), amended.  On any store, for a cursor within
its bounds that is not valid: the position equals the number of keys; `Read` and
`Delete` end by the runtime panic of the out-of-range index, make no sub-store call and
leave the store, the cursor and the out-parameter as they were; `Update` does not look
at the position and is `Store.Update` of the object. -/
theorem exhausted_cursor {OS IS : Type} (c : Cursor OS IS) (st : State OS IS) (o : Object)
    (hinv : c.Inv) (hv : c.Valid = false) :
    c.keyIndex = (c.keys.length : Int) ∧
    c.Read st o = ⟨.indexOutOfRange c.keyIndex c.keys.length, o, c, st, []⟩ ∧
    c.Delete st = ⟨.indexOutOfRange c.keyIndex c.keys.length, c, st, []⟩ ∧
    c.Update st o
      = ⟨.ended (c.store.Update st o).outcome, c, (c.store.Update st o).state,
          (c.store.Update st o).calls⟩ := by
  have hc := currKey_of_not_valid hinv hv
  obtain ⟨_, h1, hm⟩ := hinv
  have hge : ¬ c.keyIndex < c.maxKeys := by simpa [Cursor.Valid] using hv
  refine ⟨by omega, ?_, ?_, rfl⟩
  · simp [Cursor.Read, hc]
  · simp [Cursor.Delete, hc]

/-- Witness of C13: the cursor over the key of "a" after one `Next`. -/
theorem exhausted_cursor_witness :
    cursorA.Next.Inv ∧ cursorA.Next.Valid = false ∧
    (cursorA.Next.Read stateA blank).outcome = .indexOutOfRange 1 1 ∧
    (cursorA.Next.Read stateA blank).state = stateA ∧
    (cursorA.Next.Read stateA blank).calls = [] ∧
    (cursorA.Next.Delete stateA).outcome = .indexOutOfRange 1 1 ∧
    (cursorA.Next.Delete stateA).state = stateA ∧
    (cursorA.Next.Delete stateA).calls = [] :=
  have hinv : cursorA.Next.Inv := Inv_Next cursorA (Inv_newFilter [objA.PrimaryKey] modelStore)
  have h := exhausted_cursor cursorA.Next stateA blank hinv (by decide)
  ⟨hinv, by decide, congrArg CursorReadResult.outcome h.2.1,
    congrArg CursorReadResult.state h.2.1, congrArg CursorReadResult.calls h.2.1,
    congrArg CursorResult.outcome h.2.2.1, congrArg CursorResult.state h.2.2.1,
    congrArg CursorResult.calls h.2.2.1⟩

/-- The sub-store calls of `Store.Update` all carry the object or its primary key, and
the first one is `indexes.Delete` of that key. -/
theorem Store_Update_calls {OS IS : Type} (s : Store OS IS) (st : State OS IS) (o : Object) :
    (s.Update st o).calls.head? = some (.indexesDelete o.PrimaryKey) ∧
    (∀ call ∈ (s.Update st o).calls,
      call = .indexesDelete o.PrimaryKey ∨ call = .indexesIndex o ∨ call = .objectsUpdate o) := by
  rcases hd : s.indexes.Delete st.indexes o.PrimaryKey with ⟨is1, _ | e1⟩
  · rcases hx : s.indexes.Index is1 o with ⟨is2, _ | e2⟩
    · rcases hu : s.objects.Update st.objects o with ⟨os1, _ | e3⟩ <;>
        simp [Store.Update, hd, hx, hu]
    · simp [Store.Update, hd, hx]
  · simp [Store.Update, hd]

/-- C14 (`Cursor.Update` is a pass-through).  On any store, for a cursor at any position:
`Update o` ends as `Store.Update o` on the store of the cursor ends, leaves the state
that call leaves and makes the sub-store calls that call makes; these calls carry `o`
or the primary key of `o` and start with `indexes.Delete` of that key, whatever key
the cursor is at; the cursor is unchanged; a cursor on the same store at another
position or over other keys gives the same result. -/
theorem cursor_update_passthrough {OS IS : Type} (c : Cursor OS IS) (st : State OS IS)
    (o : Object) :
    (c.Update st o).outcome = .ended (c.store.Update st o).outcome ∧
    (c.Update st o).state = (c.store.Update st o).state ∧
    (c.Update st o).calls = (c.store.Update st o).calls ∧
    (c.Update st o).cursor = c ∧
    (c.Update st o).calls.head? = some (.indexesDelete o.PrimaryKey) ∧
    (∀ call ∈ (c.Update st o).calls,
      call = .indexesDelete o.PrimaryKey ∨ call = .indexesIndex o ∨ call = .objectsUpdate o) ∧
    (∀ c2 : Cursor OS IS, c2.store = c.store →
      (c2.Update st o).outcome = (c.Update st o).outcome ∧
      (c2.Update st o).state = (c.Update st o).state ∧
      (c2.Update st o).calls = (c.Update st o).calls) := by
  refine ⟨rfl, rfl, rfl, rfl, ?_, ?_, ?_⟩
  · exact (Store_Update_calls c.store st o).1
  · exact (Store_Update_calls c.store st o).2
  · intro c2 h
    simp [Cursor.Update, h]

/-- Witness of C14 on the store holding "a" and "b": the cursor is at the key of "a",
and `Update` of the changed "b" changes the record of "b" and not that of "a"; an
exhausted cursor over other keys leaves the same state. -/
theorem cursor_update_passthrough_witness :
    cursorAB.currKey = some objA.PrimaryKey ∧
    (cursorAB.Update stateAB objB2).outcome = .ended (.returned none) ∧
    (cursorAB.Update stateAB objB2).state = (modelStore.Update stateAB objB2).state ∧
    (cursorAB.Update stateAB objB2).calls
      = [.indexesDelete objB.PrimaryKey, .indexesIndex objB2, .objectsUpdate objB2] ∧
    (cursorAB.Update stateAB objB2).cursor.keyIndex = 0 ∧
    (modelStore.Read (cursorAB.Update stateAB objB2).state objA.PrimaryKey blank).out = objA ∧
    (modelStore.Read (cursorAB.Update stateAB objB2).state objB.PrimaryKey blank).out = objB2 ∧
    (cursorA.Next.store = cursorAB.store ∧
      (cursorA.Next.Update stateAB objB2).state = (cursorAB.Update stateAB objB2).state) :=
  have h := cursor_update_passthrough cursorAB stateAB objB2
  ⟨by decide, by decide, h.2.1, by decide, congrArg Cursor.keyIndex h.2.2.2.1,
    by decide, by decide, rfl, (h.2.2.2.2.2.2 cursorA.Next rfl).2.1⟩

/-- One call leaves the key sequence, `maxKeys` and the store of the cursor as they were. -/
theorem World.step_frame {OS IS : Type} (s : Store OS IS) (w : World OS IS) (op : Op) :
    (w.step s op).cursor.keys = w.cursor.keys ∧
    (w.step s op).cursor.maxKeys = w.cursor.maxKeys ∧
    (w.step s op).cursor.store = w.cursor.store := by
  cases op with
  | cursorNext =>
    simp only [World.step, Cursor.Next]
    split <;> simp
  | cursorRead o =>
    simp only [World.step, Cursor.Read]
    split <;> simp
  | cursorUpdate o => simp [World.step, Cursor.Update]
  | cursorDelete =>
    simp only [World.step, Cursor.Delete]
    split <;> simp
  | storeCreate o => simp [World.step]
  | storeUpdate o => simp [World.step]
  | storeDelete k => simp [World.step]

/-- C15 (snapshot isolation).
(1) On any store: after any sequence of calls of `Next`, `Read`, `Update`, `Delete` on
the cursor and of `Create`, `Update`, `Delete` on the store, the key sequence of the
cursor, its length and `maxKeys` are what they were.
(2) Over the object store of the specification and any index store: after a
`Cursor.Delete` at a valid position that returned no error the cursor is unchanged and
still valid, and `Cursor.Read` at that position returns `ErrNotFound`, leaving the
out-parameter and the state as they were. -/
theorem cursor_snapshot :
    (∀ {OS IS : Type} (s : Store OS IS) (w : World OS IS) (ops : List Op),
      (w.run s ops).cursor.keys = w.cursor.keys ∧
      (w.run s ops).cursor.keys.length = w.cursor.keys.length ∧
      (w.run s ops).cursor.maxKeys = w.cursor.maxKeys ∧
      (w.run s ops).cursor.store = w.cursor.store) ∧
    (∀ {IS : Type} (v : Bool) (I : indexes.Store IS) (c : Cursor (List (Bytes × Object)) IS)
        (st : State (List (Bytes × Object)) IS) (o : Object),
      c.store = ⟨v, objects.model, I⟩ → c.Valid = true →
      (c.Delete st).outcome = .ended (.returned none) →
        (c.Delete st).cursor = c ∧ (c.Delete st).cursor.Valid = true ∧
        (c.Read (c.Delete st).state o).outcome = .ended (.returned (some .ErrNotFound)) ∧
        (c.Read (c.Delete st).state o).out = o ∧
        (c.Read (c.Delete st).state o).state = (c.Delete st).state) := by
  refine ⟨?_, ?_⟩
  · intro OS IS s w ops
    have h : (w.run s ops).cursor.keys = w.cursor.keys ∧
        (w.run s ops).cursor.maxKeys = w.cursor.maxKeys ∧
        (w.run s ops).cursor.store = w.cursor.store := by
      induction ops generalizing w with
      | nil => exact ⟨rfl, rfl, rfl⟩
      | cons op rest ih =>
        have h1 := World.step_frame s w op
        have h2 := ih (w.step s op)
        simp only [World.run, List.foldl_cons] at h2 ⊢
        exact ⟨h2.1.trans h1.1, h2.2.1.trans h1.2.1, h2.2.2.trans h1.2.2⟩
    exact ⟨h.1, congrArg List.length h.1, h.2.1, h.2.2⟩
  · intro IS v I c st o hs hv hd
    rcases hk : c.currKey with _ | key
    · simp [Cursor.Delete, hk] at hd
    · simp only [Cursor.Delete, hk, hs, Store.Delete, objects.model] at hd ⊢
      rcases hi : I.Delete st.indexes key with ⟨is1, _ | e1⟩
      · simp only [hi] at hd ⊢
        rcases hg : kvGet key st.objects with _ | x
        · simp [hg] at hd
        · simp [hg, Cursor.Read, hk, hs, Store.Read, objects.model, kvGet_kvDelete_self, hv]
      · simp [hi] at hd

/-- Witness of C15 on the store holding "a" and "b": a mixed sequence of calls, and a
delete followed by a read through the cursor over the key of "a". -/
theorem cursor_snapshot_witness :
    ((World.mk cursorAB stateAB).run modelStore
        [.cursorNext, .storeDelete objB.PrimaryKey, .cursorDelete, .storeCreate objC,
          .cursorRead blank, .cursorUpdate objA2, .cursorNext]).cursor.keys
      = [objA.PrimaryKey, objB.PrimaryKey] ∧
    (cursorA.Valid = true ∧
      (cursorA.Delete stateA).outcome = .ended (.returned none) ∧
      (cursorA.Delete stateA).cursor.keyIndex = 0 ∧
      (cursorA.Delete stateA).cursor.Valid = true ∧
      (cursorA.Read (cursorA.Delete stateA).state blank).outcome
        = .ended (.returned (some .ErrNotFound))) :=
  have h := cursor_snapshot.2 DefaultVerifyType indexes.model cursorA stateA blank rfl
    (by decide) (by decide)
  ⟨(cursor_snapshot.1 modelStore (World.mk cursorAB stateAB) _).1,
    by decide, by decide, congrArg Cursor.keyIndex h.1, h.2.1, h.2.2.1⟩

/-! ## Namespaces -/

theorem KVStore.key_eq_path (s : KVStore) (k : Bytes) : s.key k = s.path ++ k := by
  induction s generalizing k with
  | root => simp [KVStore.key, KVStore.path]
  | prefixed parent pfx ih => simp [KVStore.key, KVStore.path, ih]

theorem KVStore.disjoint_of_byte (db : KVStore) (pfx : Bytes) {a b : Nat} (h : a ≠ b) :
    (KVStore.prefixed (.prefixed db pfx) [a]).DisjointFrom (.prefixed (.prefixed db pfx) [b]) := by
  intro k1 k2 he
  simp only [KVStore.key_eq_path, KVStore.path, List.append_assoc, List.append_cancel_left_eq,
    List.singleton_append, List.cons.injEq] at he
  exact h he.1

theorem KVStore.unaffected_of_disjoint {a b : KVStore} (h : a.DisjointFrom b) :
    b.Unaffected a := by
  intro content k1 v k2
  have hne : b.key k2 ≠ a.key k1 := fun e => h k1 k2 e.symm
  exact ⟨kvGet_kvSet_ne hne v content, kvGet_kvDelete_ne hne content⟩

/-- C17 (disjoint namespaces).  For every key-value store `db` and root prefix `pfx`:
the stores `NewStore` builds for object records, index postings and metadata keep the
entry of key `k` under the key `pfx ++ [0] ++ k`, `pfx ++ [1] ++ k` and
`pfx ++ [2] ++ k` of `db`; the three bytes are pairwise distinct; no entry of one of
the three stores shares its full key with an entry of another; no set or delete through
one of them changes what another reads; and `NewStore` hands the first two to the
object store and to the index store. -/
theorem disjoint_namespaces :
    (∀ (db : KVStore) (pfx k : Bytes),
      (NewStore.subStores db pfx).objects.key k = db.key (pfx ++ [0] ++ k) ∧
      (NewStore.subStores db pfx).indexes.key k = db.key (pfx ++ [1] ++ k) ∧
      (NewStore.subStores db pfx).metadata.key k = db.key (pfx ++ [2] ++ k) ∧
      (NewStore.subStores .root pfx).objects.key k = pfx ++ [0] ++ k ∧
      (NewStore.subStores .root pfx).indexes.key k = pfx ++ [1] ++ k ∧
      (NewStore.subStores .root pfx).metadata.key k = pfx ++ [2] ++ k) ∧
    (ObjectsPrefix ≠ IndexesPrefix ∧ ObjectsPrefix ≠ MetadataPrefix ∧
      IndexesPrefix ≠ MetadataPrefix) ∧
    (∀ (db : KVStore) (pfx : Bytes),
      (NewStore.subStores db pfx).objects.DisjointFrom (NewStore.subStores db pfx).indexes ∧
      (NewStore.subStores db pfx).objects.DisjointFrom (NewStore.subStores db pfx).metadata ∧
      (NewStore.subStores db pfx).indexes.DisjointFrom (NewStore.subStores db pfx).metadata) ∧
    (∀ (db : KVStore) (pfx : Bytes),
      (NewStore.subStores db pfx).indexes.Unaffected (NewStore.subStores db pfx).objects ∧
      (NewStore.subStores db pfx).metadata.Unaffected (NewStore.subStores db pfx).objects ∧
      (NewStore.subStores db pfx).objects.Unaffected (NewStore.subStores db pfx).indexes ∧
      (NewStore.subStores db pfx).metadata.Unaffected (NewStore.subStores db pfx).indexes ∧
      (NewStore.subStores db pfx).objects.Unaffected (NewStore.subStores db pfx).metadata ∧
      (NewStore.subStores db pfx).indexes.Unaffected (NewStore.subStores db pfx).metadata) ∧
    (∀ {OS IS : Type} (newObjects : KVStore → objects.Store OS)
        (newIndexes : KVStore → indexes.Store IS) (db : KVStore) (pfx : Bytes),
      (NewStore newObjects newIndexes db pfx []).objects
        = newObjects (NewStore.subStores db pfx).objects ∧
      (NewStore newObjects newIndexes db pfx []).indexes
        = newIndexes (NewStore.subStores db pfx).indexes) := by
  have h01 : (0 : Nat) ≠ 1 := by decide
  have h02 : (0 : Nat) ≠ 2 := by decide
  have h12 : (1 : Nat) ≠ 2 := by decide
  refine ⟨?_, ⟨h01, h02, h12⟩, ?_, ?_, ?_⟩
  · intro db pfx k
    simp [NewStore.subStores, KVStore.key, ObjectsPrefix, IndexesPrefix, MetadataPrefix]
  · intro db pfx
    exact ⟨KVStore.disjoint_of_byte db pfx h01, KVStore.disjoint_of_byte db pfx h02,
      KVStore.disjoint_of_byte db pfx h12⟩
  · intro db pfx
    exact ⟨KVStore.unaffected_of_disjoint (KVStore.disjoint_of_byte db pfx h01),
      KVStore.unaffected_of_disjoint (KVStore.disjoint_of_byte db pfx h02),
      KVStore.unaffected_of_disjoint (KVStore.disjoint_of_byte db pfx (Ne.symm h01)),
      KVStore.unaffected_of_disjoint (KVStore.disjoint_of_byte db pfx h12),
      KVStore.unaffected_of_disjoint (KVStore.disjoint_of_byte db pfx (Ne.symm h02)),
      KVStore.unaffected_of_disjoint (KVStore.disjoint_of_byte db pfx (Ne.symm h12))⟩
  · intro OS IS newObjects newIndexes db pfx
    exact ⟨rfl, rfl⟩

/-- Illustration of C17 with the root prefix "query" of the tests: the full keys of the
entry "a" in the three stores, and a write through the object store seen from the index
store. -/
theorem disjoint_namespaces_witness :
    (NewStore.subStores .root [113, 117, 101, 114, 121]).objects.key [97]
      = [113, 117, 101, 114, 121, 0, 97] ∧
    (NewStore.subStores .root [113, 117, 101, 114, 121]).indexes.key [97]
      = [113, 117, 101, 114, 121, 1, 97] ∧
    (NewStore.subStores .root [113, 117, 101, 114, 121]).metadata.key [97]
      = [113, 117, 101, 114, 121, 2, 97] ∧
    (NewStore.subStores .root []).indexes.Get
        ((NewStore.subStores .root []).objects.Set [([1, 97], [7])] [97] [8]) [97]
      = (NewStore.subStores .root []).indexes.Get [([1, 97], [7])] [97] :=
  ⟨(disjoint_namespaces.1 .root [113, 117, 101, 114, 121] [97]).2.2.2.1,
    (disjoint_namespaces.1 .root [113, 117, 101, 114, 121] [97]).2.2.2.2.1,
    (disjoint_namespaces.1 .root [113, 117, 101, 114, 121] [97]).2.2.2.2.2,
    ((disjoint_namespaces.2.2.2.1 .root []).1 [([1, 97], [7])] [97] [8] [97]).1⟩

/-! ## Enumerating a store -/

theorem bytesLt_irrefl (a : Bytes) : bytesLt a a = false := by
  induction a with
  | nil => rfl
  | cons x xs ih => simp [bytesLt, ih]

theorem bytesLt_trans {a b c : Bytes} (h1 : bytesLt a b = true) (h2 : bytesLt b c = true) :
    bytesLt a c = true := by
  induction a generalizing b c with
  | nil =>
    cases b with
    | nil => simp [bytesLt] at h1
    | cons y ys =>
      cases c with
      | nil => simp [bytesLt] at h2
      | cons z zs => simp [bytesLt]
  | cons x xs ih =>
    cases b with
    | nil => simp [bytesLt] at h1
    | cons y ys =>
      cases c with
      | nil => simp [bytesLt] at h2
      | cons z zs =>
        simp only [bytesLt, Bool.or_eq_true, Bool.and_eq_true, decide_eq_true_eq,
          beq_iff_eq] at h1 h2 ⊢
        rcases h1 with h1 | ⟨h1, h1'⟩
        · rcases h2 with h2 | ⟨h2, _⟩
          · exact Or.inl (by omega)
          · exact Or.inl (by omega)
        · rcases h2 with h2 | ⟨h2, h2'⟩
          · exact Or.inl (by omega)
          · exact Or.inr ⟨by omega, ih h1' h2'⟩

theorem bytesLt_total {a b : Bytes} (hne : a ≠ b) (h : bytesLt a b = false) :
    bytesLt b a = true := by
  induction a generalizing b with
  | nil =>
    cases b with
    | nil => exact absurd rfl hne
    | cons y ys => simp [bytesLt] at h
  | cons x xs ih =>
    cases b with
    | nil => simp [bytesLt]
    | cons y ys =>
      simp only [bytesLt, Bool.or_eq_false_iff, Bool.and_eq_false_imp, decide_eq_false_iff_not,
        beq_iff_eq] at h
      simp only [bytesLt, Bool.or_eq_true, Bool.and_eq_true, decide_eq_true_eq, beq_iff_eq]
      obtain ⟨hx, hxs⟩ := h
      by_cases hxy : x = y
      · subst hxy
        have hne' : xs ≠ ys := fun e => hne (by rw [e])
        exact Or.inr ⟨rfl, ih hne' (hxs rfl)⟩
      · exact Or.inl (by omega)

theorem kvSet_perm {α : Type} {k : Bytes} (v : α) {l : List (Bytes × α)}
    (h : kvGet k l = none) : (kvSet k v l).Perm ((k, v) :: l) := by
  induction l with
  | nil => simp [kvSet]
  | cons e t ih =>
    obtain ⟨k', v'⟩ := e
    by_cases h1 : k' = k
    · simp [kvGet, h1] at h
    · simp only [kvGet, h1, if_false] at h
      by_cases hlt : bytesLt k k' = true
      · simp [kvSet, h1, hlt]
      · have hlt2 : bytesLt k k' = false := by simpa using hlt
        simp only [kvSet, h1, hlt2, if_false, Bool.false_eq_true]
        exact ((ih h).cons (k', v')).trans (List.Perm.swap _ _ _)

theorem kvSet_ascending {α : Type} (k : Bytes) (v : α) {l : List (Bytes × α)}
    (h : KeysAscending l) : KeysAscending (kvSet k v l) := by
  induction l with
  | nil => simp [kvSet, KeysAscending]
  | cons e t ih =>
    obtain ⟨k', v'⟩ := e
    simp only [KeysAscending, List.map_cons, List.pairwise_cons] at h
    obtain ⟨hk', ht⟩ := h
    by_cases h1 : k' = k
    · subst h1
      simp only [kvSet, if_true, KeysAscending, List.map_cons, List.pairwise_cons]
      exact ⟨hk', ht⟩
    · by_cases hlt : bytesLt k k' = true
      · simp only [kvSet, h1, hlt, if_true, if_false, KeysAscending, List.map_cons,
          List.pairwise_cons]
        refine ⟨?_, hk', ht⟩
        intro x hx
        rcases List.mem_cons.mp hx with hx | hx
        · rw [hx]; exact hlt
        · exact bytesLt_trans hlt (hk' x hx)
      · have hlt2 : bytesLt k k' = false := by simpa using hlt
        simp only [kvSet, h1, hlt2, if_false, Bool.false_eq_true, KeysAscending, List.map_cons,
          List.pairwise_cons]
        refine ⟨?_, ih ht⟩
        intro x hx
        obtain ⟨y, hy, hy1⟩ := List.mem_map.mp hx
        rcases mem_of_mem_kvSet hy with hy | hy
        · rw [← hy1, hy]
          exact bytesLt_total (fun e => h1 e.symm) hlt2
        · exact hk' x (hy1 ▸ List.mem_map_of_mem Prod.fst hy)

theorem keys_nodup_of_ascending {α : Type} {l : List (Bytes × α)} (h : KeysAscending l) :
    (l.map Prod.fst).Nodup := by
  unfold KeysAscending at h
  exact h.imp (fun hab e => by
    subst e
    rw [bytesLt_irrefl] at hab
    exact Bool.false_ne_true hab)

theorem kvGet_of_mem {α : Type} {l : List (Bytes × α)} (hn : (l.map Prod.fst).Nodup)
    {k : Bytes} {v : α} (hm : (k, v) ∈ l) : kvGet k l = some v := by
  induction l with
  | nil => simp at hm
  | cons e t ih =>
    obtain ⟨k', v'⟩ := e
    simp only [List.map_cons, List.nodup_cons] at hn
    rcases List.mem_cons.mp hm with hm | hm
    · cases hm
      simp [kvGet]
    · have hne : k' ≠ k := by
        intro e
        subst e
        exact hn.1 (List.mem_map_of_mem Prod.fst hm)
      simp only [kvGet, hne, if_false]
      exact ih hn.2 hm

/-- A create over the model collaborators that returned no error. -/
theorem modelStore_Create_ok {st : ModelState} {o : Object}
    (hc : (modelStore.Create st o).outcome = .returned none) :
    kvGet o.PrimaryKey st.objects = none ∧
    (modelStore.Create st o).state
      = ⟨kvSet o.PrimaryKey o st.objects, kvSet o.PrimaryKey o.SecondaryKeys st.indexes⟩ := by
  simp only [modelStore, Store.Create, objects.model, indexes.model] at hc ⊢
  rcases hg : kvGet o.PrimaryKey st.objects with _ | x
  · rcases hi : kvGet o.PrimaryKey st.indexes with _ | y
    · simp
    · simp [hg, hi, kvGet_kvSet_self] at hc
  · simp [hg] at hc

/-- The object region after successive creates over the model collaborators. -/
theorem createAll_objects (objs : List Object) (st0 st : ModelState)
    (hc : createAll modelStore st0 objs = some st) (ha : KeysAscending st0.objects) :
    KeysAscending st.objects ∧
    st.objects.Perm (objs.map (fun o => (o.PrimaryKey, o)) ++ st0.objects) := by
  induction objs generalizing st0 with
  | nil =>
    simp only [createAll, Option.some.injEq] at hc
    subst hc
    exact ⟨ha, by simp⟩
  | cons o rest ih =>
    simp only [createAll] at hc
    split at hc
    · rename_i hok
      obtain ⟨hg, hs⟩ := modelStore_Create_ok hok
      have ha1 : KeysAscending (modelStore.Create st0 o).state.objects := by
        rw [hs]; exact kvSet_ascending _ _ ha
      obtain ⟨h1, h2⟩ := ih _ hc ha1
      refine ⟨h1, ?_⟩
      rw [hs] at h2
      refine h2.trans ?_
      simp only [List.map_cons, List.cons_append]
      exact ((kvSet_perm o hg).append_left _).trans List.perm_middle
    · simp at hc

/-- The loop over the keys of a region without repeated key, from the position behind
the entries `pre`, reads the remaining entries in order and ends at the last position. -/
theorem readLoop_model (st : ModelState) (out : Object)
    (hn : (st.objects.map Prod.fst).Nodup) (suf pre : List (Bytes × Object)) (fuel : Nat)
    (hs : st.objects = pre ++ suf) (hf : suf.length ≤ fuel) :
    ((readLoop fuel ⟨(st.objects.length : Int), (pre.length : Int),
        st.objects.map Prod.fst, modelStore⟩ st out).reads.map (fun r => r.out)
      = suf.map Prod.snd) ∧
    (∀ r ∈ (readLoop fuel ⟨(st.objects.length : Int), (pre.length : Int),
        st.objects.map Prod.fst, modelStore⟩ st out).reads,
      r.outcome = .ended (.returned none)) ∧
    (readLoop fuel ⟨(st.objects.length : Int), (pre.length : Int),
        st.objects.map Prod.fst, modelStore⟩ st out).cursor
      = ⟨(st.objects.length : Int), (st.objects.length : Int),
          st.objects.map Prod.fst, modelStore⟩ ∧
    (readLoop fuel ⟨(st.objects.length : Int), (pre.length : Int),
        st.objects.map Prod.fst, modelStore⟩ st out).state = st := by
  induction suf generalizing pre fuel with
  | nil =>
    have hl : st.objects.length = pre.length := by rw [hs]; simp
    cases fuel with
    | zero => simp [readLoop, hl]
    | succ f => simp [readLoop, Cursor.Valid, hl]
  | cons e suf ih =>
    obtain ⟨k, v⟩ := e
    cases fuel with
    | zero => simp at hf
    | succ f =>
      have hf' : suf.length ≤ f := by simpa using hf
      have hlen : st.objects.length = pre.length + (suf.length + 1) := by rw [hs]; simp
      have hlt : ((pre.length : Nat) : Int) < ((st.objects.length : Nat) : Int) := by
        exact_mod_cast (by omega : pre.length < st.objects.length)
      have hkey : (st.objects.map Prod.fst)[pre.length]? = some k := by
        rw [hs, List.map_append, List.map_cons,
          List.getElem?_append_right (by simp : (pre.map Prod.fst).length ≤ pre.length)]
        simp
      have hget : kvGet k st.objects = some v :=
        kvGet_of_mem hn (by rw [hs]; simp)
      have hck : (⟨(st.objects.length : Int), (pre.length : Int), st.objects.map Prod.fst,
          modelStore⟩ : Cursor _ _).currKey = some k := by
        simp [Cursor.currKey, hkey]
      have hread : (⟨(st.objects.length : Int), (pre.length : Int), st.objects.map Prod.fst,
          modelStore⟩ : Cursor _ _).Read st out
          = ⟨.ended (.returned none), v,
              ⟨(st.objects.length : Int), (pre.length : Int), st.objects.map Prod.fst,
                modelStore⟩, st, [.objectsRead k]⟩ := by
        have hr : modelStore.Read st k out = ⟨none, v, st, [.objectsRead k]⟩ := by
          simp [modelStore, Store.Read, objects.model, hget]
        simp only [Cursor.Read, hck, hr]
      have hnext : (⟨(st.objects.length : Int), (pre.length : Int), st.objects.map Prod.fst,
          modelStore⟩ : Cursor _ _).Next
          = ⟨(st.objects.length : Int), ((pre ++ [(k, v)]).length : Int),
              st.objects.map Prod.fst, modelStore⟩ := by
        simp [Cursor.Next, hlt]
      have hih := ih (pre ++ [(k, v)]) f (by rw [hs]; simp) hf'
      have hvalid : (⟨(st.objects.length : Int), (pre.length : Int), st.objects.map Prod.fst,
          modelStore⟩ : Cursor _ _).Valid = true := by
        simp [Cursor.Valid, hlt]
      simp only [readLoop, hvalid, if_true, hread, hnext]
      obtain ⟨h1, h2, h3, h4⟩ := hih
      refine ⟨?_, ?_, h3, h4⟩
      · simp only [List.map_cons, h1]
      · intro r hr
        rcases List.mem_cons.mp hr with hr | hr
        · rw [hr]
        · exact h2 r hr

/-- C11 (the unfiltered query enumerates everything).  Over the collaborators of the
specification: let the state be reached from the empty store by creates of the objects
`objs` that all returned no error (their primary keys are then distinct).  `Query`
with no secondary keys and range `(0, 0)` returns no error, changes nothing and returns
the fresh cursor over the keys of the object store.  The loop "while `Valid`: `Read`;
`Next`", given at least `objs.length` rounds, makes exactly `objs.length` reads and
ends on an invalid cursor; every read returns no error; the objects read are the
records of the object store in its order, which is the ascending byte order of their
primary keys, and they are the created objects, each exactly once. -/
theorem query_all (objs : List Object) (st : ModelState) (out : Object) (fuel : Nat)
    (hc : createAll modelStore emptyState objs = some st) (hf : objs.length ≤ fuel) :
    (modelStore.Query st [] 0 0).err = none ∧
    (modelStore.Query st [] 0 0).state = st ∧
    (modelStore.Query st [] 0 0).cursor
      = some (newFilter (st.objects.map Prod.fst) modelStore) ∧
    (readLoop fuel (newFilter (st.objects.map Prod.fst) modelStore) st out).reads.length
      = objs.length ∧
    (∀ r ∈ (readLoop fuel (newFilter (st.objects.map Prod.fst) modelStore) st out).reads,
      r.outcome = .ended (.returned none)) ∧
    (readLoop fuel (newFilter (st.objects.map Prod.fst) modelStore) st out).reads.map
        (fun r => r.out) = st.objects.map Prod.snd ∧
    (readLoop fuel (newFilter (st.objects.map Prod.fst) modelStore) st out).cursor.Valid
      = false ∧
    (readLoop fuel (newFilter (st.objects.map Prod.fst) modelStore) st out).state = st ∧
    (st.objects.map Prod.snd).Perm objs ∧
    KeysAscending st.objects ∧
    st.objects.map Prod.fst = (st.objects.map Prod.snd).map Object.PrimaryKey ∧
    (objs.map Object.PrimaryKey).Nodup := by
  obtain ⟨hasc, hperm⟩ := createAll_objects objs emptyState st hc
    (by simp [KeysAscending, emptyState])
  simp only [emptyState, List.append_nil] at hperm
  have hn := keys_nodup_of_ascending hasc
  have hsnd : (st.objects.map Prod.snd).Perm objs := by
    have := hperm.map Prod.snd
    simpa [List.map_map, Function.comp_def] using this
  have hlen : st.objects.length = objs.length := by
    have := hperm.length_eq
    simpa using this
  have hkeys : st.objects.map Prod.fst = (st.objects.map Prod.snd).map Object.PrimaryKey := by
    rw [List.map_map]
    apply List.map_congr_left
    intro e he
    obtain ⟨o, _, ho⟩ := List.mem_map.mp (hperm.subset he)
    rw [← ho]
    rfl
  have hpk : (objs.map Object.PrimaryKey).Nodup := by
    have h1 : (st.objects.map Prod.fst).Perm (objs.map Object.PrimaryKey) := by
      rw [hkeys]; exact hsnd.map _
    exact h1.nodup_iff.mp hn
  have hcur : newFilter (st.objects.map Prod.fst) modelStore
      = ⟨(st.objects.length : Int), (([] : List (Bytes × Object)).length : Int),
          st.objects.map Prod.fst, modelStore⟩ := by
    simp [newFilter]
  obtain ⟨h1, h2, h3, h4⟩ := readLoop_model st out hn st.objects [] fuel (by simp)
    (by rw [hlen]; exact hf)
  rw [← hcur] at h1 h2 h3 h4
  have hq := modelStore_Query_cursor st [] 0 0
  rw [modelStore_Query_keys] at hq
  simp only [List.length_nil, if_true] at hq
  refine ⟨?_, ?_, hq, ?_, h2, h1, ?_, h4, hsnd, hasc, hkeys, hpk⟩
  · simp [Store.Query, modelStore, objects.model]
  · simp [Store.Query, modelStore, objects.model]
  · have := congrArg List.length h1
    simpa [hlen] using this
  · rw [h3]
    simp [Cursor.Valid]

/-- Witness of C11: "b", "a" and "c" are created in this order; the loop reads "a", "b",
"c". -/
theorem query_all_witness :
    createAll modelStore emptyState [objB, objA, objC] = some stateBAC ∧
    (modelStore.Query stateBAC [] 0 0).cursor
      = some (newFilter [objA.PrimaryKey, objB.PrimaryKey, objC.PrimaryKey] modelStore) ∧
    (readLoop 3 (newFilter (stateBAC.objects.map Prod.fst) modelStore) stateBAC blank).reads.length
      = 3 ∧
    (readLoop 3 (newFilter (stateBAC.objects.map Prod.fst) modelStore) stateBAC blank).reads.map
        (fun r => r.out) = [objA, objB, objC] ∧
    (readLoop 3 (newFilter (stateBAC.objects.map Prod.fst) modelStore) stateBAC
        blank).cursor.Valid = false :=
  have h := query_all [objB, objA, objC] stateBAC blank 3 (by decide) (by decide)
  ⟨by decide, h.2.2.1, h.2.2.2.1, h.2.2.2.2.2.1, h.2.2.2.2.2.2.1⟩

end Crud
